import Mathlib

/-!
Verification of the document-builder core of `project_euler_offline`
(`src/project_euler_offline/document_builder.py`).

The Python code is shallowly embedded over `List Char`.  Python `str` is
modelled as `List Char`; Python regular-expression scanning (`re.finditer`,
`re.sub`, `re.match`, `re.search`) is modelled by explicit executable
matchers over character lists; each matcher follows the concrete pattern
of the source file, including the backtracking behaviour of the
non-greedy groups actually present in those patterns.  Python `set`
objects are modelled as duplicate-free lists (`insertIfAbsent`), and the
insertion-ordered `dict` of colour mappings as an association list.
Literal braces inside string literals are written with the escapes
`\x7b` and `\x7d`.  `str.lower` is modelled by `Char.toLower`, which
agrees with Python on ASCII input (all inputs in the claims are ASCII).
-/

set_option maxHeartbeats 1000000
set_option maxRecDepth 100000

/-- Characters matched by the Python regex class `\s` (ASCII range). -/
def pyIsSpace (c : Char) : Bool :=
  c = ' ' || c = '\t' || c = '\n' || c = '\x0d' || c = '\x0c' || c = '\x0b'

/-- Match a literal string at the head of the input, returning the rest. -/
def stripLit (lit : List Char) (cs : List Char) : Option (List Char) :=
  if lit.isPrefixOf cs then some (cs.drop lit.length) else none

/-- Boolean substring (infix) test: does `pat` occur inside `s`? -/
def containsSub (pat : List Char) (s : List Char) : Bool :=
  pat.isPrefixOf s ||
    match s with
    | [] => false
    | _ :: cs => containsSub pat cs

/-- Python `str.replace`: replace every non-overlapping occurrence of `pat`
(scanning left to right) by `repl`.  All call sites in the embedded code use
a non-empty `pat`; for `pat = []` this function is the identity. -/
def replaceAllFuel (pat repl : List Char) : Nat → List Char → List Char
  | _, [] => []
  | 0, s => s
  | fuel + 1, c :: cs =>
    if pat ≠ [] ∧ pat.isPrefixOf (c :: cs) then
      repl ++ replaceAllFuel pat repl fuel (cs.drop (pat.length - 1))
    else
      c :: replaceAllFuel pat repl fuel cs

/-- `replaceAll` proper: the fuel `s.length` always suffices because every
step consumes at least one character. -/
def replaceAll (pat repl : List Char) (s : List Char) : List Char :=
  replaceAllFuel pat repl s.length s

/-- Python `set.add`, on the duplicate-free-list model of a set. -/
def insertIfAbsent (l : List (List Char)) (x : List Char) : List (List Char) :=
  if x ∈ l then l else l ++ [x]

/-- Adding a whole batch of elements to a set. -/
def dedupInto (acc : List (List Char)) (xs : List (List Char)) : List (List Char) :=
  xs.foldl insertIfAbsent acc

/-- `re.finditer`: scan left to right; at each position try the matcher; on a
match record its payload and resume after the matched text (all matchers used
here consume at least one character, so the guard is always satisfied). -/
def reFindAllFuel {α : Type} (m : List Char → Option (α × List Char)) :
    Nat → List Char → List α
  | _, [] => []
  | 0, _ => []
  | fuel + 1, c :: cs =>
    match m (c :: cs) with
    | some (a, rest) =>
      if rest.length < cs.length + 1 then a :: reFindAllFuel m fuel rest
      else reFindAllFuel m fuel cs
    | none => reFindAllFuel m fuel cs

def reFindAll {α : Type} (m : List Char → Option (α × List Char)) (s : List Char) : List α :=
  reFindAllFuel m s.length s

/-- `re.sub` with a pure replacement function of the captured groups. -/
def reSubPFuel {α : Type} (m : List Char → Option (α × List Char))
    (repl : α → List Char) : Nat → List Char → List Char
  | _, [] => []
  | 0, s => s
  | fuel + 1, c :: cs =>
    match m (c :: cs) with
    | some (a, rest) =>
      if rest.length < cs.length + 1 then repl a ++ reSubPFuel m repl fuel rest
      else c :: reSubPFuel m repl fuel cs
    | none => c :: reSubPFuel m repl fuel cs

def reSubP {α : Type} (m : List Char → Option (α × List Char))
    (repl : α → List Char) (s : List Char) : List Char :=
  reSubPFuel m repl s.length s

/-- `re.sub` with a stateful replacement action (used for the formula
placeholder substitution, whose replacement function records the matched
text in a growing substitution table). -/
def reSubStFuel {σ : Type} (m : List Char → Option (List Char × List Char))
    (act : List Char → σ → List Char × σ) : Nat → List Char → σ → List Char × σ
  | _, [], st => ([], st)
  | 0, s, st => (s, st)
  | fuel + 1, c :: cs, st =>
    match m (c :: cs) with
    | some (txt, rest) =>
      if rest.length < cs.length + 1 then
        ((act txt st).1 ++ (reSubStFuel m act fuel rest (act txt st).2).1,
          (reSubStFuel m act fuel rest (act txt st).2).2)
      else
        (c :: (reSubStFuel m act fuel cs st).1, (reSubStFuel m act fuel cs st).2)
    | none =>
      (c :: (reSubStFuel m act fuel cs st).1, (reSubStFuel m act fuel cs st).2)

def reSubSt {σ : Type} (m : List Char → Option (List Char × List Char))
    (act : List Char → σ → List Char × σ) (s : List Char) (st : σ) : List Char × σ :=
  reSubStFuel m act s.length s st

/-- Matcher for `\$\$[^$]+?\$\$` (line 176): since `[^$]` cannot cross a
dollar sign, the non-greedy repetition deterministically takes the maximal
dollar-free run, which must then be closed by `$$`. -/
def matchMathDD (cs : List Char) : Option (List Char × List Char) :=
  match cs with
  | '$' :: '$' :: rest =>
    match rest.dropWhile (fun c => c != '$') with
    | '$' :: '$' :: rest2 =>
      if rest.takeWhile (fun c => c != '$') ≠ [] then
        some ('$' :: '$' :: (rest.takeWhile (fun c => c != '$') ++ ['$', '$']), rest2)
      else none
    | _ => none
  | _ => none

/-- Matcher for `\$[^$]+?\$` (line 177). -/
def matchMathS (cs : List Char) : Option (List Char × List Char) :=
  match cs with
  | '$' :: rest =>
    match rest.dropWhile (fun c => c != '$') with
    | '$' :: rest2 =>
      if rest.takeWhile (fun c => c != '$') ≠ [] then
        some ('$' :: (rest.takeWhile (fun c => c != '$') ++ ['$']), rest2)
      else none
    | _ => none
  | _ => none

/-- Scan for the first occurrence of the literal `\]`, splitting the input
into the text before it and the text after it. -/
def findCloseBr (cs : List Char) : Option (List Char × List Char) :=
  match cs with
  | '\\' :: ']' :: rest => some ([], rest)
  | c :: rest =>
    match findCloseBr rest with
    | some p => some (c :: p.1, p.2)
    | none => none
  | [] => none

/-- Matcher for `\\\[.*?\\\]` with DOTALL (lines 178-183): the non-greedy
`.*?` stops at the first following `\]`. -/
def matchMathBr (cs : List Char) : Option (List Char × List Char) :=
  match cs with
  | '\\' :: '[' :: rest =>
    match findCloseBr rest with
    | some p => some ('\\' :: '[' :: (p.1 ++ ['\\', ']']), p.2)
    | none => none
  | _ => none

/-- The literal `\includegraphics`. -/
def igLit : List Char := "\\includegraphics".toList

/-- Parse `{(?P<path>[^}]+)}` and pair the path with previously captured
options. -/
def parseBracedPath (opts : Option (List Char)) (r : List Char) :
    Option ((Option (List Char) × List Char) × List Char) :=
  match r with
  | '\x7b' :: r1 =>
    match r1.dropWhile (fun c => c != '\x7d') with
    | '\x7d' :: rest =>
      if r1.takeWhile (fun c => c != '\x7d') ≠ [] then
        some ((opts, r1.takeWhile (fun c => c != '\x7d')), rest)
      else none
    | _ => none
  | _ => none

/-- Matcher for `\\includegraphics(\[(?P<options>[^\]]*)\])?{(?P<path>[^}]+)}`
(lines 359-361 and 428-432).  If the optional bracket group is present but
does not close, or the brace group fails, the regex as a whole fails at this
position (falling back to the empty optional group leaves the `{` literal
facing the `[`, which cannot match). -/
def matchIncludegraphics (cs : List Char) :
    Option ((Option (List Char) × List Char) × List Char) :=
  match stripLit igLit cs with
  | none => none
  | some r0 =>
    match r0 with
    | '[' :: r1 =>
      match r1.dropWhile (fun c => c != ']') with
      | ']' :: r2 => parseBracedPath (some (r1.takeWhile (fun c => c != ']'))) r2
      | _ => none
    | _ => parseBracedPath none r0

/-- The exact text consumed by a `matchIncludegraphics` match
(`match.group(0)`). -/
def igReconstruct (opts : Option (List Char)) (path : List Char) : List Char :=
  igLit ++ (match opts with
            | some o => '[' :: (o ++ [']'])
            | none => []) ++ '\x7b' :: (path ++ ['\x7d'])

/-- The literal `\href{`. -/
def hrefLit : List Char := "\\href\x7b".toList

/-- Matcher for `\\href{(?P<href_target>[^}]+)}{(?P<href_label>[^}]+)}`
(lines 365-367). -/
def matchHrefSimple (cs : List Char) :
    Option ((List Char × List Char) × List Char) :=
  match stripLit hrefLit cs with
  | none => none
  | some r0 =>
    match r0.dropWhile (fun c => c != '\x7d') with
    | '\x7d' :: '\x7b' :: r1 =>
      match r1.dropWhile (fun c => c != '\x7d') with
      | '\x7d' :: rest =>
        if r0.takeWhile (fun c => c != '\x7d') ≠ [] ∧
            r1.takeWhile (fun c => c != '\x7d') ≠ [] then
          some ((r0.takeWhile (fun c => c != '\x7d'),
                 r1.takeWhile (fun c => c != '\x7d')), rest)
        else none
      | _ => none
    | _ => none

/-- The non-greedy group `(?P<href_filename>[^\/}]*?.txt)}` of the attachment
regex (line 468), in continuation-passing style: try the empty repetition
first (`.` is any character under DOTALL, then literal `txt}`); if the
continuation rejects, extend the repetition by one character (which must not
be `/` or `}`) and retry — the regex engine's backtracking order. -/
def fnameScanK {α : Type} (cs : List Char)
    (k : List Char → List Char → Option α) : Option α :=
  (match cs with
   | c :: 't' :: 'x' :: 't' :: '\x7d' :: rest => k [c, 't', 'x', 't'] rest
   | _ => none) <|>
  (match cs with
   | c :: rest =>
     if ¬ (c = '/' || c = '\x7d') then
       fnameScanK rest (fun f r => k (c :: f) r)
     else none
   | [] => none)

/-- The non-greedy group `(?P<href_url_path_base>[^\s}]*?)` of the attachment
regex (line 468), again shortest-first with backtracking into the
continuation. -/
def baseScanK {α : Type} (cs : List Char)
    (k : List Char → List Char → List Char → Option α) : Option α :=
  fnameScanK cs (fun f r => k [] f r) <|>
  (match cs with
   | c :: rest =>
     if ¬ (pyIsSpace c || c = '\x7d') then
       baseScanK rest (fun b f r => k (c :: b) f r)
     else none
   | [] => none)

/-- Matcher for the attachment-link regex of `write` (lines 467-472):
`\\href{(?P<href_url_path_base>[^\s}]*?)(?P<href_filename>[^\/}]*?.txt)}{(?P<href_label>[^}]*?)}`.
Captures `(base, filename, label)`. -/
def matchHrefAttach (cs : List Char) :
    Option ((List Char × List Char × List Char) × List Char) :=
  match stripLit hrefLit cs with
  | none => none
  | some r0 =>
    baseScanK r0 (fun b f r1 =>
      match r1 with
      | '\x7b' :: r2 =>
        match r2.dropWhile (fun c => c != '\x7d') with
        | '\x7d' :: rest => some ((b, f, r2.takeWhile (fun c => c != '\x7d')), rest)
        | _ => none
      | _ => none)

/-- Matcher for `\\href{problem=(?P<problem_id>\d+)}{(?P<href_target>[^}]*?)}`
(lines 482-487). -/
def matchProblemLink (cs : List Char) :
    Option ((List Char × List Char) × List Char) :=
  match stripLit ("\\href\x7bproblem=".toList) cs with
  | none => none
  | some r0 =>
    match r0.dropWhile (fun c => c.isDigit) with
    | '\x7d' :: '\x7b' :: r1 =>
      match r1.dropWhile (fun c => c != '\x7d') with
      | '\x7d' :: rest =>
        if r0.takeWhile (fun c => c.isDigit) ≠ [] then
          some ((r0.takeWhile (fun c => c.isDigit),
                 r1.takeWhile (fun c => c != '\x7d')), rest)
        else none
      | _ => none
    | _ => none

/-- Matcher for `\\href{about=(?P<about_id>[^}]+)}{(?P<href_target>[^}]*?)}`
(lines 490-495). -/
def matchAboutLink (cs : List Char) :
    Option ((List Char × List Char) × List Char) :=
  match stripLit ("\\href\x7babout=".toList) cs with
  | none => none
  | some r0 =>
    match r0.dropWhile (fun c => c != '\x7d') with
    | '\x7d' :: '\x7b' :: r1 =>
      match r1.dropWhile (fun c => c != '\x7d') with
      | '\x7d' :: rest =>
        if r0.takeWhile (fun c => c != '\x7d') ≠ [] then
          some ((r0.takeWhile (fun c => c != '\x7d'),
                 r1.takeWhile (fun c => c != '\x7d')), rest)
        else none
      | _ => none
    | _ => none

/-- Require at least one `\s` character, then skip the whole greedy run. -/
def reqSpace (r : List Char) : Option (List Char) :=
  match r with
  | c :: _ => if pyIsSpace c then some (r.dropWhile pyIsSpace) else none
  | [] => none

/-- Matcher for the hint-stripping regex of `write` (lines 474-479):
`\s*\(right\s+click\s+and\s+['"]Save\s+Link/Target\s+As...['"]\)\s*`
(the three dots are wildcards under DOTALL).  Every `\s` run is followed by a
character that is not whitespace, so the greedy runs are deterministic. -/
def matchRightClick (cs : List Char) : Option (Unit × List Char) :=
  match stripLit ("(right".toList) (cs.dropWhile pyIsSpace) with
  | none => none
  | some r1 => do
    let r2 ← reqSpace r1
    let r3 ← stripLit ("click".toList) r2
    let r4 ← reqSpace r3
    let r5 ← stripLit ("and".toList) r4
    let r6 ← reqSpace r5
    match r6 with
    | q :: r7 =>
      if q = '\x27' || q = '"' then do
        let r8 ← stripLit ("Save".toList) r7
        let r9 ← reqSpace r8
        let r10 ← stripLit ("Link/Target".toList) r9
        let r11 ← reqSpace r10
        let r12 ← stripLit ("As".toList) r11
        match r12 with
        | _ :: _ :: _ :: q2 :: ')' :: rest =>
          if q2 = '\x27' || q2 = '"' then some ((), rest.dropWhile pyIsSpace)
          else none
        | _ => none
      else none
    | [] => none

/-- `re.search` over all suffixes of the input. -/
def searchAt (p : List Char → Bool) (s : List Char) : Bool :=
  p s ||
    match s with
    | [] => false
    | _ :: cs => searchAt p cs

/-- `[^;]*(courier new|monospace)`: some semicolon-free run followed by one of
the two alternatives. -/
def fontFamilyTail (cs : List Char) : Bool :=
  (("courier new".toList).isPrefixOf cs || ("monospace".toList).isPrefixOf cs) ||
    match cs with
    | c :: rest => c != ';' && fontFamilyTail rest
    | [] => false

/-- Position matcher for `font-family:[^;]*(courier new|monospace)`
(line 305). -/
def fontFamilyAt (cs : List Char) : Bool :=
  match stripLit ("font-family:".toList) cs with
  | some r => fontFamilyTail r
  | none => false

/-- Position matcher for the patterns `<prop>\s*<word>` used by the style
classifier (lines 308-324). -/
def propWordAt (prop word : List Char) (cs : List Char) : Bool :=
  match stripLit prop cs with
  | some r => word.isPrefixOf (r.dropWhile pyIsSpace)
  | none => false

/-- Characters admitted by the capture group `[^;\s]+` of the colour rule. -/
def colorValueChar (c : Char) : Bool := !pyIsSpace c && c != ';'

/-- The anchored colour rule `re.match("color:\s*#?(?P<color_value>[^;\s]+)", ...)`
(line 302), applied to the lower-cased declaration string.  The greedy `\s*`
cannot be given back (what follows is never whitespace), and if the optional
`#` is consumed but no value character follows, the engine backtracks and the
`#` itself becomes the first captured character. -/
def colorMatchValue (sl : List Char) : Option (List Char) :=
  match stripLit ("color:".toList) sl with
  | none => none
  | some r0 =>
    match r0.dropWhile pyIsSpace with
    | '#' :: tl =>
      let cap := tl.takeWhile colorValueChar
      if cap ≠ [] then some cap else some ('#' :: cap)
    | r1 =>
      let cap := r1.takeWhile colorValueChar
      if cap ≠ [] then some cap else none

/-- `DocumentBuilder._transform_style_to_classes` (lines 297-326).  The
Python function returns a `set`; it is modelled as the list of added tags in
rule order (each rule adds a distinct constant, so the list is
duplicate-free). -/
def transform_style_to_classes (style : List Char) : List (List Char) :=
  let sl := style.map Char.toLower
  (match colorMatchValue sl with
   | some v => [("__COLOR__".toList) ++ v]
   | none => []) ++
  (if searchAt fontFamilyAt sl then [("monospace".toList)] else []) ++
  (if searchAt (propWordAt ("font-size:".toList) ("larger".toList)) sl then
    [("larger".toList)] else []) ++
  (if searchAt (propWordAt ("font-size:".toList) ("smaller".toList)) sl then
    [("smaller".toList)] else []) ++
  (if searchAt (propWordAt ("font-style:".toList) ("italic".toList)) sl then
    [("italic".toList)] else []) ++
  (if searchAt (propWordAt ("font-weight:".toList) ("bold".toList)) sl then
    [("strong".toList)] else []) ++
  (if searchAt (propWordAt ("text-align:".toList) ("center".toList)) sl then
    [("center".toList)] else []) ++
  (if searchAt (propWordAt ("text-decoration:".toList) ("underline".toList)) sl then
    [("underline".toList)] else [])

/-- The generated name for the `k`-th ad hoc colour:
`f"CustomColor{len(self._color_mappings)}"` (line 289). -/
def customColorName (k : Nat) : List Char :=
  ("CustomColor".toList) ++ (Nat.repr k).toList

/-- The palette update of `_transform_pandoc_document_inline_elements` for a
class `__COLOR__<color>` (lines 283-295): look the colour value up in the
insertion-ordered mapping; on a miss append a new entry whose generated name
is determined by the current number of entries.  Returns the updated mapping
together with the colour name used to wrap the span. -/
def registerColor (m : List (List Char × List Char)) (color : List Char) :
    List (List Char × List Char) × List Char :=
  match m.find? (fun p => p.1 == color) with
  | some p => (m, p.2)
  | none => (m ++ [(color, customColorName m.length)], customColorName m.length)

/-- Folding `registerColor` over a sequence of encountered colour values. -/
def registerColors (m : List (List Char × List Char))
    (colors : List (List Char)) : List (List Char × List Char) :=
  colors.foldl (fun acc c => (registerColor acc c).1) m

/-- `DocumentBuilder._build_latex_preamble` (lines 130-138): one
`\definecolor` line per palette entry, in insertion order. -/
def buildLatexPreamble (m : List (List Char × List Char)) : List Char :=
  m.foldl (fun acc p =>
    acc ++ ("\\definecolor\x7b".toList) ++ p.2 ++ ("\x7d\x7bHTML\x7d\x7b".toList)
      ++ p.1 ++ ("\x7d\n".toList)) []

/-- The final path component (`pathlib.PurePath.name`, for the flat string
model of paths). -/
def pathName (p : List Char) : List Char :=
  (p.reverse.takeWhile (fun c => c != '/')).reverse

/-- `pathlib.PurePath.suffix`: the part of the final component from its last
dot, provided that dot is neither the first nor the last character of the
component; otherwise empty. -/
def pathSuffix (p : List Char) : List Char :=
  let name := pathName p
  let afterDot := name.reverse.takeWhile (fun c => c != '.')
  if afterDot.length = name.length then []
  else
    if 0 < name.length - 1 - afterDot.length ∧ afterDot.length ≠ 0 then
      '.' :: afterDot.reverse
    else []

/-- `pathlib.PurePath.with_suffix`: drop the current suffix (if any) and
append the new one. -/
def withSuffix (p suf : List Char) : List Char :=
  let s := pathSuffix p
  if s = [] then p ++ suf else (p.take (p.length - s.length)) ++ suf

/-- A per-resource frame-count record as assembled in `app.py`
(`dict(url_path=..., file_path=..., frame_count=...)`). -/
structure AnimatedResource where
  url_path : List Char
  file_path : List Char
  frame_count : Int
deriving DecidableEq

/-- The dictionary built at lines 401-404 maps each `url_path` to its record,
later entries overwriting earlier ones; `.get` on it therefore finds the last
record with the given path. -/
def lookupAnimated (rs : List AnimatedResource) (p : List Char) :
    Option AnimatedResource :=
  rs.reverse.find? (fun r => r.url_path == p)

/-- The fixed options prepended to every animated-image command (line 416). -/
def animDefaultOptions : List Char :=
  "controls=all,keepaspectratio,loop,width=\\linewidth".toList

/-- `transform_animated_resource` (lines 406-426): the replacement computed
for one matched image-inclusion command with captured `options` and `path`.
Note that Python treats an empty captured options string as falsy, so an
empty `[]` block is dropped rather than preserved. -/
def transformAnimatedResource (rs : List AnimatedResource)
    (optsGroup : Option (List Char)) (path : List Char) : List Char :=
  match lookupAnimated rs path with
  | some ar =>
    if ar.frame_count ≠ 1 then
      let base := withSuffix ar.file_path [] ++ ['-']
      let options :=
        match optsGroup with
        | some o => if o ≠ [] then animDefaultOptions ++ (',' :: o)
                    else animDefaultOptions
        | none => animDefaultOptions
      ("\\animategraphics[".toList) ++ options ++ ("]\x7b1\x7d\x7b".toList)
        ++ base ++ ("\x7d\x7b0\x7d\x7b".toList)
        ++ (toString (ar.frame_count - 1)).toList ++ ("\x7d".toList)
    else
      ("\\includegraphics\x7b".toList) ++ withSuffix ar.file_path (".png".toList)
        ++ ("\x7d".toList)
  | none => igReconstruct optsGroup path

/-- The unique placeholder token for the `n`-th protected formula region:
`f"LATEX-{marker_index}-SUBSTITUTION"` (line 172). -/
def formulaMarker (n : Nat) : List Char :=
  ("LATEX-".toList) ++ (Nat.repr n).toList ++ ("-SUBSTITUTION".toList)

/-- `replace_with_marker` (lines 170-174): emit the next marker and record
the matched text under it. -/
def markerAct (txt : List Char) (st : List (List Char × List Char)) :
    List Char × List (List Char × List Char) :=
  (formulaMarker st.length, st ++ [(formulaMarker st.length, txt)])

/-- The three formula-protection passes of `_transform_html_to_latex`
(lines 176-183): double-dollar, then single-dollar, then bracket spans. -/
def protectFormulas (content : List Char) :
    List Char × List (List Char × List Char) :=
  let p1 := reSubSt matchMathDD markerAct content []
  let p2 := reSubSt matchMathS markerAct p1.1 p1.2
  reSubSt matchMathBr markerAct p2.1 p2.2

/-- The entity unescaping applied to each recorded formula text before it is
substituted back (lines 190-192). -/
def unescapeEntities (t : List Char) : List Char :=
  replaceAll ("&gt;".toList) (">".toList)
    (replaceAll ("&lt;".toList) ("<".toList)
      (replaceAll ("&amp;".toList) ("&".toList) t))

/-- The marker-restoration loop (lines 189-193): for each recorded pair in
insertion order, replace every occurrence of the marker in the serialized
document by the unescaped original text. -/
def restoreFormulas (doc : List Char)
    (subs : List (List Char × List Char)) : List Char :=
  subs.foldl (fun d p => replaceAll p.1 (unescapeEntities p.2) d) doc

/-- The state of a `DocumentBuilder` instance (lines 116-128). -/
structure DocumentBuilder where
  is_spaced : Bool
  color_mappings : List (List Char × List Char)
  classes : List (List Char × List Nat)
  url_paths_about : List (List Char)
  url_paths_embedded : List (List Char)
  url_paths_resources : List (List Char)
  output_latex_content : List Char
  output_html_debug : List Char
  output_has_appendix : Bool
deriving DecidableEq

/-- `DocumentBuilder.__init__` (lines 117-128). -/
def DocumentBuilder.init (is_spaced : Bool) : DocumentBuilder :=
  { is_spaced := is_spaced
    color_mappings := []
    classes := []
    url_paths_about := []
    url_paths_embedded := []
    url_paths_resources := []
    output_latex_content := []
    output_html_debug := []
    output_has_appendix := false }

/-- The target classification of one `\href` target (lines 368-373):
`.txt` suffix wins, else `about=` prefix, else untracked. -/
def classifyHrefTarget (b : DocumentBuilder) (tgt : List Char) :
    DocumentBuilder :=
  if (".txt".toList).isSuffixOf tgt then
    { b with url_paths_embedded := insertIfAbsent b.url_paths_embedded tgt }
  else if ("about=".toList).isPrefixOf tgt then
    { b with url_paths_about := insertIfAbsent b.url_paths_about tgt }
  else b

/-- The `\includegraphics` paths found in a blob of markup, in match order
(line 359-363). -/
def igPaths (content : List Char) : List (List Char) :=
  (reFindAll matchIncludegraphics content).map (fun pr => pr.2)

/-- The `\href` targets found in a blob of markup, in match order
(lines 365-368). -/
def hrefTargets (content : List Char) : List (List Char) :=
  (reFindAll matchHrefSimple content).map (fun pr => pr.1)

/-- `DocumentBuilder.parse_latex_links` (lines 358-373): first every
`\includegraphics` path joins the resource set, then every `\href` target is
classified. -/
def parse_latex_links (b : DocumentBuilder) (content : List Char) :
    DocumentBuilder :=
  let newResources := dedupInto b.url_paths_resources (igPaths content)
  let b1 := { b with url_paths_resources := newResources }
  (hrefTargets content).foldl classifyHrefTarget b1

/-- `DocumentBuilder.append_latex_content` (lines 344-346). -/
def append_latex_content (b : DocumentBuilder) (latex_content : List Char) :
    DocumentBuilder :=
  let b1 := parse_latex_links b latex_content
  { b1 with output_latex_content := b1.output_latex_content ++ latex_content }

/-- The page-break marker inserted in spaced mode (line 350). -/
def pageBreakMarker : List Char := "\n\\newpage\n\n".toList

/-- `DocumentBuilder.append_latex_content_page` (lines 348-352). -/
def append_latex_content_page (b : DocumentBuilder) (latex_content : List Char) :
    DocumentBuilder :=
  let b1 := if b.is_spaced then append_latex_content b pageBreakMarker else b
  append_latex_content b1 latex_content

/-- The literal `"\n\n"` appended after each page fragment. -/
def doubleNewline : List Char := "\n\n".toList

/-- `DocumentBuilder.append_problem_latex_content` (lines 354-356). -/
def append_problem_latex_content (b : DocumentBuilder)
    (problem_content_latex : List Char) : DocumentBuilder :=
  append_latex_content (append_latex_content_page b problem_content_latex)
    doubleNewline

/-- The appendix section header emitted once before the first appendix
fragment (lines 332-338, a raw triple-quoted string ending in a newline). -/
def appendixHeader : List Char :=
  ("\\titleformat\x7b\\section\x7d\n\x7b\\Large\\bfseries\\sffamily\\color\x7btitleblue\x7d\x7d\n\x7b\\StyledTitleBox\x7bAppendix\x7d\x7d\n\x7b0pt\x7d\n\x7b\\TitleUnderline\x7b\\enspace\x7b\x7d#1\x7d\x7d\n\\appendix\n").toList

/-- `DocumentBuilder.append_about_latex_content` (lines 328-342). -/
def append_about_latex_content (b : DocumentBuilder)
    (about_content_latex : List Char) : DocumentBuilder :=
  let b1 := if b.output_has_appendix then b
            else append_latex_content { b with output_has_appendix := true }
                   appendixHeader
  append_latex_content (append_latex_content_page b1 about_content_latex)
    doubleNewline

/-- `DocumentBuilder.process_animated_resources` (lines 400-432). -/
def process_animated_resources (b : DocumentBuilder)
    (animated_resources : List AnimatedResource) : DocumentBuilder :=
  let newOutput := reSubP matchIncludegraphics
    (fun pr => transformAnimatedResource animated_resources pr.1 pr.2)
    b.output_latex_content
  { b with output_latex_content := newOutput }

/-- `LATEX_CHARACTER_SUBSTITUTIONS` (lines 21-53), in source order. -/
def LATEX_CHARACTER_SUBSTITUTIONS : List (Char × List Char) :=
  [ ('’', ("\\textquoteright\x7b\x7d").toList)
  , ('⌈', ("\\ensuremath\x7b⌈\x7d").toList)
  , ('⌉', ("\\ensuremath\x7b⌉\x7d").toList)
  , ('⌊', ("\\ensuremath\x7b⌊\x7d").toList)
  , ('⌋', ("\\ensuremath\x7b⌋\x7d").toList)
  , ('↔', ("\\ensuremath\x7b↔\x7d").toList)
  , ('∅', ("\\ensuremath\x7b∅\x7d").toList)
  , ('∈', ("\\ensuremath\x7b∈\x7d").toList)
  , ('∑', ("\\ensuremath\x7b∑\x7d").toList)
  , ('≠', ("\\ensuremath\x7b≠\x7d").toList)
  , ('∩', ("\\ensuremath\x7b∩\x7d").toList)
  , ('≈', ("\\ensuremath\x7b≈\x7d").toList)
  , ('≡', ("\\ensuremath\x7b≡\x7d").toList)
  , ('≤', ("\\ensuremath\x7b≤\x7d").toList)
  , ('≥', ("\\ensuremath\x7b≥\x7d").toList)
  , ('⋅', ("\\ensuremath\x7b⋅\x7d").toList)
  , ('①', ("\\circled\x7b1\x7d").toList)
  , ('⑩', ("\\circled\x7b10\x7d").toList)
  , ('⑪', ("\\circled\x7b11\x7d").toList)
  , ('②', ("\\circled\x7b2\x7d").toList)
  , ('③', ("\\circled\x7b3\x7d").toList)
  , ('④', ("\\circled\x7b4\x7d").toList)
  , ('⑤', ("\\circled\x7b5\x7d").toList)
  , ('⑥', ("\\circled\x7b6\x7d").toList)
  , ('⑦', ("\\circled\x7b7\x7d").toList)
  , ('⑧', ("\\circled\x7b8\x7d").toList)
  , ('⑨', ("\\circled\x7b9\x7d").toList)
  , ('ń', ['\\', '\x27', '\x7b', 'n', '\x7d'])
  , ('μ', ("\\ensuremath\x7bμ\x7d").toList)
  , ('π', ("\\ensuremath\x7bπ\x7d").toList)
  , ('ω', ("\\ensuremath\x7bω\x7d").toList) ]

/-- The character-substitution loop of `write` (lines 505-506). -/
def applyCharSubs (subs : List (Char × List Char)) (s : List Char) : List Char :=
  subs.foldl (fun acc p => replaceAll [p.1] p.2 acc) s

/-- Modelled from the spec: `template.tex` is a data file not under `src/`.
Per spec section 6 it is "a document template string containing two named
placeholders: `preamble` and `content`"; a template is modelled as a
sequence of literal segments and those two placeholders. -/
inductive TemplateSeg where
  | lit (s : List Char)
  | preambleHole
  | contentHole
deriving DecidableEq

/-- Modelled from the spec: `string.Template.substitute` fills each
placeholder with the corresponding value and keeps literal text. -/
def substituteTemplate (tpl : List TemplateSeg) (preamble content : List Char) :
    List Char :=
  match tpl with
  | [] => []
  | seg :: rest =>
    (match seg with
     | TemplateSeg.lit s => s
     | TemplateSeg.preambleHole => preamble
     | TemplateSeg.contentHole => content) ++ substituteTemplate rest preamble content

/-- Lexicographic (code-point) order on strings, as used by Python `sorted`. -/
def lexLe (a b : List Char) : Bool :=
  match a, b with
  | [], _ => true
  | _ :: _, [] => false
  | c :: cs, d :: ds => if c = d then lexLe cs ds else decide (c < d)

/-- Stable insertion into a sorted list of strings. -/
def insertSortedStr (x : List Char) (l : List (List Char)) : List (List Char) :=
  match l with
  | [] => [x]
  | y :: ys => if lexLe x y then x :: y :: ys else y :: insertSortedStr x ys

/-- Python `sorted` on a list of strings. -/
def sortStrs (l : List (List Char)) : List (List Char) :=
  l.foldr insertSortedStr []

/-- Python `sep.join(...)`. -/
def joinSep (sep : List Char) (l : List (List Char)) : List Char :=
  match l with
  | [] => []
  | [x] => x
  | x :: xs => x ++ sep ++ joinSep sep xs

/-- Python `str` of a list of (quote-free) strings, as written to the
`debug_classes.txt` artifact. -/
def pyReprStrList (l : List (List Char)) : List Char :=
  '[' :: (joinSep ((", ").toList) (l.map (fun s => '\x27' :: (s ++ ['\x27']))) ++ [']'])

/-- The `debug_classes.txt` content assembled at lines 511-517. -/
def debugClassesText (classes : List (List Char × List Nat)) : List Char :=
  pyReprStrList (sortStrs (classes.map (fun p => p.1))) ++ '\n' ::
    joinSep (("\n").toList)
      (classes.map (fun p =>
        p.1 ++ ((": ").toList) ++
          joinSep ((", ").toList) (p.2.map (fun n => (Nat.repr n).toList))))

/-- The replacement template of the attachment rewrite (line 469), with
captures `(base, filename, label)`. -/
def attachReplacement (g : List Char × List Char × List Char) : List Char :=
  ("\\textattachfile[color=linkcolor]\x7b".toList) ++ g.2.1 ++ ("\x7d\x7b".toList)
    ++ g.2.2 ++ ("\x7d\\footnote\x7bSource: \\url\x7bhttps://projecteuler.net/".toList)
    ++ g.1 ++ g.2.1 ++ ("\x7d\x7d".toList)

/-- The replacement template of the puzzle cross-reference rewrite
(line 484), with captures `(problem_id, label)`. -/
def problemReplacement (g : List Char × List Char) : List Char :=
  ("\\hyperref[sec:problem_".toList) ++ g.1 ++ ("]\x7b".toList) ++ g.2
    ++ ("\x7d".toList)

/-- The replacement lambda of the appendix cross-reference rewrite
(line 492), with captures `(about_id, label)`. -/
def aboutReplacement (g : List Char × List Char) : List Char :=
  ("\\hyperref[sec:about=".toList) ++ g.1 ++ ("]\x7b".toList) ++ g.2
    ++ ("\x7d".toList)

/-- `DocumentBuilder.write` (lines 463-521).  All rewriting happens on a
local copy of the accumulated output; no builder field is assigned.  The
returned tuple carries the unchanged builder followed by the three written
texts: the final document source, the `debug_classes.txt` content and the
`debug_output.html` content. -/
def write (b : DocumentBuilder) (tpl : List TemplateSeg) :
    DocumentBuilder × List Char × List Char × List Char :=
  let c0 := b.output_latex_content
  let c1 := reSubP matchHrefAttach attachReplacement c0
  let c2 := reSubP matchRightClick (fun _ => []) c1
  let c3 := reSubP matchProblemLink problemReplacement c2
  let c4 := reSubP matchAboutLink aboutReplacement c3
  let output_latex := applyCharSubs LATEX_CHARACTER_SUBSTITUTIONS
    (substituteTemplate tpl (buildLatexPreamble b.color_mappings) c4)
  (b, output_latex, debugClassesText b.classes, b.output_html_debug)

/-- One public append operation of the Document Assembler. -/
inductive BuilderOp where
  | problem (s : List Char)
  | about (s : List Char)
  | literal (s : List Char)
  | page (s : List Char)
deriving DecidableEq

/-- Dispatch one append operation. -/
def runOp (b : DocumentBuilder) (op : BuilderOp) : DocumentBuilder :=
  match op with
  | BuilderOp.problem s => append_problem_latex_content b s
  | BuilderOp.about s => append_about_latex_content b s
  | BuilderOp.literal s => append_latex_content b s
  | BuilderOp.page s => append_latex_content_page b s

/-- Run a sequence of append operations. -/
def runOps (b : DocumentBuilder) (ops : List BuilderOp) : DocumentBuilder :=
  ops.foldl runOp b

/-- The page break contributed by one page-scoped append, as a function of
the spaced flag. -/
def pageBreakIf (sp : Bool) : List Char := if sp then pageBreakMarker else []

/-- The text one append operation contributes to the accumulated output,
not counting the one-time appendix header. -/
def renderPlain (sp : Bool) (op : BuilderOp) : List Char :=
  match op with
  | BuilderOp.problem s => pageBreakIf sp ++ s ++ doubleNewline
  | BuilderOp.about s => pageBreakIf sp ++ s ++ doubleNewline
  | BuilderOp.literal s => s
  | BuilderOp.page s => pageBreakIf sp ++ s

/-- Split an operation list at its first appendix append, if any. -/
def splitFirstAbout (ops : List BuilderOp) :
    Option (List BuilderOp × List Char × List BuilderOp) :=
  match ops with
  | [] => none
  | BuilderOp.about s :: rest => some ([], s, rest)
  | op :: rest =>
    match splitFirstAbout rest with
    | some (p, s, r) => some (op :: p, s, r)
    | none => none

/-- A target classified into the attachment set (line 370). -/
def isTxtTarget (t : List Char) : Bool := (".txt".toList).isSuffixOf t

/-- A target classified into the appendix cross-reference set (line 372):
reached only when the `.txt` branch did not fire. -/
def isAboutTarget (t : List Char) : Bool :=
  !(".txt".toList).isSuffixOf t && ("about=".toList).isPrefixOf t

theorem stripLit_sound {lit cs r : List Char} (h : stripLit lit cs = some r) :
    lit ++ r = cs := by
  unfold stripLit at h
  split at h
  · rename_i hp
    obtain ⟨t, rfl⟩ := List.isPrefixOf_iff_prefix.mp hp
    simp only [Option.some.injEq] at h
    subst h
    simp [List.drop_left]
  · exact absurd h (by simp)

theorem stripLit_none_head {d : Char} {lt : List Char} {c : Char} {t : List Char}
    (hne : c ≠ d) : stripLit (d :: lt) (c :: t) = none := by
  unfold stripLit
  have : (d :: lt).isPrefixOf (c :: t) = false := by
    simp [List.isPrefixOf_cons₂, Ne.symm hne]
  simp [this]

theorem containsSub_of_suffix_starts {pat s s' : List Char}
    (hs : s' <:+ s) (hp : pat.isPrefixOf s' = true) : containsSub pat s = true := by
  induction s with
  | nil =>
    have : s' = [] := List.eq_nil_of_suffix_nil hs
    subst this
    unfold containsSub
    simp [hp]
  | cons c cs ih =>
    rcases List.suffix_cons_iff.mp hs with h | h
    · subst h
      unfold containsSub
      simp [hp]
    · unfold containsSub
      simp [ih h]

theorem not_prefix_of_not_containsSub {pat s s' : List Char}
    (h : containsSub pat s = false) (hs : s' <:+ s) :
    pat.isPrefixOf s' = false := by
  by_contra hc
  have : pat.isPrefixOf s' = true := by
    cases hpf : pat.isPrefixOf s' with
    | true => rfl
    | false => exact absurd hpf hc
  rw [containsSub_of_suffix_starts hs this] at h
  exact absurd h (by simp)

theorem replaceAllFuel_congr (pat repl : List Char) :
    ∀ f f' (s : List Char), s.length ≤ f → s.length ≤ f' →
      replaceAllFuel pat repl f s = replaceAllFuel pat repl f' s := by
  intro f
  induction f with
  | zero =>
    intro f' s h _
    cases s with
    | nil => cases f' <;> rfl
    | cons c cs => simp at h
  | succ f ih =>
    intro f' s h h'
    cases s with
    | nil => cases f' <;> rfl
    | cons c cs =>
      cases f' with
      | zero => simp at h'
      | succ f' =>
        simp only [replaceAllFuel]
        simp only [List.length_cons] at h h'
        split
        · rw [ih f' (cs.drop (pat.length - 1))
            (by simp only [List.length_drop]; omega)
            (by simp only [List.length_drop]; omega)]
        · rw [ih f' cs (by omega) (by omega)]

theorem reFindAllFuel_congr {α : Type} (m : List Char → Option (α × List Char)) :
    ∀ f f' (s : List Char), s.length ≤ f → s.length ≤ f' →
      reFindAllFuel m f s = reFindAllFuel m f' s := by
  intro f
  induction f with
  | zero =>
    intro f' s h _
    cases s with
    | nil => cases f' <;> rfl
    | cons c cs => simp at h
  | succ f ih =>
    intro f' s h h'
    cases s with
    | nil => cases f' <;> rfl
    | cons c cs =>
      cases f' with
      | zero => simp at h'
      | succ f' =>
        simp only [reFindAllFuel]
        simp only [List.length_cons] at h h'
        cases hm : m (c :: cs) with
        | none => exact ih f' cs (by omega) (by omega)
        | some pr =>
          obtain ⟨a, rest⟩ := pr
          by_cases hg : rest.length < cs.length + 1
          · simp only [hg, if_true, ite_true]
            rw [ih f' rest (by omega) (by omega)]
          · simp only [hg, if_false, ite_false]
            exact ih f' cs (by omega) (by omega)

theorem reSubPFuel_congr {α : Type} (m : List Char → Option (α × List Char))
    (repl : α → List Char) :
    ∀ f f' (s : List Char), s.length ≤ f → s.length ≤ f' →
      reSubPFuel m repl f s = reSubPFuel m repl f' s := by
  intro f
  induction f with
  | zero =>
    intro f' s h _
    cases s with
    | nil => cases f' <;> rfl
    | cons c cs => simp at h
  | succ f ih =>
    intro f' s h h'
    cases s with
    | nil => cases f' <;> rfl
    | cons c cs =>
      cases f' with
      | zero => simp at h'
      | succ f' =>
        simp only [reSubPFuel]
        simp only [List.length_cons] at h h'
        cases hm : m (c :: cs) with
        | none => rw [ih f' cs (by omega) (by omega)]
        | some pr =>
          obtain ⟨a, rest⟩ := pr
          by_cases hg : rest.length < cs.length + 1
          · simp only [hg, if_true, ite_true]
            rw [ih f' rest (by omega) (by omega)]
          · simp only [hg, if_false, ite_false]
            rw [ih f' cs (by omega) (by omega)]

theorem reSubStFuel_congr {σ : Type} (m : List Char → Option (List Char × List Char))
    (act : List Char → σ → List Char × σ) :
    ∀ f f' (s : List Char) (st : σ), s.length ≤ f → s.length ≤ f' →
      reSubStFuel m act f s st = reSubStFuel m act f' s st := by
  intro f
  induction f with
  | zero =>
    intro f' s st h _
    cases s with
    | nil => cases f' <;> rfl
    | cons c cs => simp at h
  | succ f ih =>
    intro f' s st h h'
    cases s with
    | nil => cases f' <;> rfl
    | cons c cs =>
      cases f' with
      | zero => simp at h'
      | succ f' =>
        simp only [reSubStFuel]
        simp only [List.length_cons] at h h'
        cases hm : m (c :: cs) with
        | none => rw [ih f' cs st (by omega) (by omega)]
        | some pr =>
          obtain ⟨txt, rest⟩ := pr
          by_cases hg : rest.length < cs.length + 1
          · simp only [hg, if_true, ite_true]
            rw [ih f' rest ((act txt st).2) (by omega) (by omega)]
          · simp only [hg, if_false, ite_false]
            rw [ih f' cs st (by omega) (by omega)]


theorem reSubP_cons_none {α : Type} (m : List Char → Option (α × List Char))
    (repl : α → List Char) (c : Char) (cs : List Char)
    (h : m (c :: cs) = none) :
    reSubP m repl (c :: cs) = c :: reSubP m repl cs := by
  unfold reSubP
  simp only [List.length_cons, reSubPFuel, h]

theorem reSubP_cons_some {α : Type} (m : List Char → Option (α × List Char))
    (repl : α → List Char) (c : Char) (cs : List Char) (a : α) (rest : List Char)
    (h : m (c :: cs) = some (a, rest)) (hlen : rest.length < cs.length + 1) :
    reSubP m repl (c :: cs) = repl a ++ reSubP m repl rest := by
  unfold reSubP
  simp only [List.length_cons, reSubPFuel, h, hlen, if_true, ite_true]
  rw [reSubPFuel_congr m repl cs.length rest.length rest (by omega) le_rfl]

theorem reSubP_noMatch {α : Type} (m : List Char → Option (α × List Char))
    (repl : α → List Char) (s : List Char)
    (h : ∀ s', s' <:+ s → m s' = none) : reSubP m repl s = s := by
  induction s with
  | nil => rfl
  | cons c cs ih =>
    rw [reSubP_cons_none _ _ _ _ (h (c :: cs) (List.suffix_refl _))]
    rw [ih (fun s' hs' => h s' (List.suffix_cons_iff.mpr (Or.inr hs')))]

theorem reSubP_id {α : Type} (m : List Char → Option (α × List Char))
    (repl : α → List Char)
    (hm : ∀ cs a rest, m cs = some (a, rest) → repl a ++ rest = cs)
    (s : List Char) : reSubP m repl s = s := by
  have H : ∀ n (s : List Char), s.length ≤ n → reSubP m repl s = s := by
    intro n
    induction n with
    | zero =>
      intro s hs
      have : s = [] := by
        cases s with
        | nil => rfl
        | cons c cs => simp at hs
      subst this
      rfl
    | succ n ih =>
      intro s hs
      cases s with
      | nil => rfl
      | cons c cs =>
        cases hm' : m (c :: cs) with
        | none =>
          rw [reSubP_cons_none _ _ _ _ hm']
          rw [ih cs (by simp at hs; omega)]
        | some pr =>
          obtain ⟨a, rest⟩ := pr
          have hre := hm _ _ _ hm'
          by_cases hg : rest.length < cs.length + 1
          · rw [reSubP_cons_some _ _ _ _ _ _ hm' hg]
            rw [ih rest (by simp at hs; omega)]
            exact hre
          · unfold reSubP
            simp only [List.length_cons, reSubPFuel, hm', hg, if_false, ite_false]
            have hcs := ih cs (by simp at hs; omega)
            unfold reSubP at hcs
            rw [hcs]
  exact H s.length s le_rfl

theorem reSubP_append_left {α : Type} (m : List Char → Option (α × List Char))
    (repl : α → List Char) (pre tail : List Char)
    (h : ∀ p', p' <:+ pre → p' ≠ [] → m (p' ++ tail) = none) :
    reSubP m repl (pre ++ tail) = pre ++ reSubP m repl tail := by
  induction pre with
  | nil => simp
  | cons c cs ih =>
    have hc : m (c :: (cs ++ tail)) = none := by
      have := h (c :: cs) (List.suffix_refl _) (by simp)
      simpa using this
    rw [List.cons_append, reSubP_cons_none _ _ _ _ hc]
    rw [ih (fun p' hp' hne => h p' (List.suffix_cons_iff.mpr (Or.inr hp')) hne)]
    simp

theorem reFindAll_cons_none {α : Type} (m : List Char → Option (α × List Char))
    (c : Char) (cs : List Char) (h : m (c :: cs) = none) :
    reFindAll m (c :: cs) = reFindAll m cs := by
  unfold reFindAll
  simp only [List.length_cons, reFindAllFuel, h]

theorem reFindAll_cons_some {α : Type} (m : List Char → Option (α × List Char))
    (c : Char) (cs : List Char) (a : α) (rest : List Char)
    (h : m (c :: cs) = some (a, rest)) (hlen : rest.length < cs.length + 1) :
    reFindAll m (c :: cs) = a :: reFindAll m rest := by
  unfold reFindAll
  simp only [List.length_cons, reFindAllFuel, h, hlen, if_true, ite_true]
  rw [reFindAllFuel_congr m cs.length rest.length rest (by omega) le_rfl]

theorem reFindAll_noMatch {α : Type} (m : List Char → Option (α × List Char))
    (s : List Char) (h : ∀ s', s' <:+ s → m s' = none) : reFindAll m s = [] := by
  induction s with
  | nil => unfold reFindAll; rfl
  | cons c cs ih =>
    rw [reFindAll_cons_none _ _ _ (h (c :: cs) (List.suffix_refl _))]
    exact ih (fun s' hs' => h s' (List.suffix_cons_iff.mpr (Or.inr hs')))

theorem reFindAll_append_left {α : Type} (m : List Char → Option (α × List Char))
    (pre tail : List Char)
    (h : ∀ p', p' <:+ pre → p' ≠ [] → m (p' ++ tail) = none) :
    reFindAll m (pre ++ tail) = reFindAll m tail := by
  induction pre with
  | nil => simp
  | cons c cs ih =>
    have hc : m (c :: (cs ++ tail)) = none := by
      have := h (c :: cs) (List.suffix_refl _) (by simp)
      simpa using this
    rw [List.cons_append, reFindAll_cons_none _ _ _ hc]
    exact ih (fun p' hp' hne => h p' (List.suffix_cons_iff.mpr (Or.inr hp')) hne)

theorem reSubSt_cons_none {σ : Type} (m : List Char → Option (List Char × List Char))
    (act : List Char → σ → List Char × σ) (c : Char) (cs : List Char) (st : σ)
    (h : m (c :: cs) = none) :
    reSubSt m act (c :: cs) st =
      ((c :: (reSubSt m act cs st).1), (reSubSt m act cs st).2) := by
  unfold reSubSt
  simp only [List.length_cons, reSubStFuel, h]

theorem reSubSt_cons_some {σ : Type} (m : List Char → Option (List Char × List Char))
    (act : List Char → σ → List Char × σ) (c : Char) (cs : List Char) (st : σ)
    (txt rest : List Char)
    (h : m (c :: cs) = some (txt, rest)) (hlen : rest.length < cs.length + 1) :
    reSubSt m act (c :: cs) st =
      (((act txt st).1 ++ (reSubSt m act rest (act txt st).2).1),
        (reSubSt m act rest (act txt st).2).2) := by
  unfold reSubSt
  simp only [List.length_cons, reSubStFuel, h, hlen, if_true, ite_true]
  rw [reSubStFuel_congr m act cs.length rest.length rest ((act txt st).2) (by omega) le_rfl]

theorem reSubSt_noMatch {σ : Type} (m : List Char → Option (List Char × List Char))
    (act : List Char → σ → List Char × σ) (s : List Char) (st : σ)
    (h : ∀ s', s' <:+ s → m s' = none) : reSubSt m act s st = (s, st) := by
  induction s with
  | nil => rfl
  | cons c cs ih =>
    rw [reSubSt_cons_none _ _ _ _ _ (h (c :: cs) (List.suffix_refl _))]
    rw [ih (fun s' hs' => h s' (List.suffix_cons_iff.mpr (Or.inr hs')))]

theorem reSubSt_append_left {σ : Type} (m : List Char → Option (List Char × List Char))
    (act : List Char → σ → List Char × σ) (pre tail : List Char) (st : σ)
    (h : ∀ p', p' <:+ pre → p' ≠ [] → m (p' ++ tail) = none) :
    reSubSt m act (pre ++ tail) st =
      ((pre ++ (reSubSt m act tail st).1), (reSubSt m act tail st).2) := by
  induction pre with
  | nil => simp
  | cons c cs ih =>
    have hc : m (c :: (cs ++ tail)) = none := by
      have := h (c :: cs) (List.suffix_refl _) (by simp)
      simpa using this
    rw [List.cons_append, reSubSt_cons_none _ _ _ _ _ hc]
    rw [ih (fun p' hp' hne => h p' (List.suffix_cons_iff.mpr (Or.inr hp')) hne)]
    simp

theorem parseBracedPath_sound {opts : Option (List Char)} {r : List Char}
    {pr : Option (List Char) × List Char} {rest : List Char}
    (h : parseBracedPath opts r = some (pr, rest)) :
    pr.1 = opts ∧ r = '\x7b' :: (pr.2 ++ ('\x7d' :: rest)) := by
  unfold parseBracedPath at h
  split at h
  · rename_i r1
    split at h
    · rename_i rest0 heq
      split at h
      · rename_i hne
        simp only [Option.some.injEq, Prod.mk.injEq] at h
        obtain ⟨hpr, hrest⟩ := h
        subst hrest
        constructor
        · rw [← hpr]
        · rw [← hpr]
          simp only []
          have hsplit : List.takeWhile (fun c => c != '\x7d') r1
              ++ List.dropWhile (fun c => c != '\x7d') r1 = r1 := by
            simp
          rw [heq] at hsplit
          conv_lhs => rw [← hsplit]
      · exact absurd h (by simp)
    · exact absurd h (by simp)
  · exact absurd h (by simp)

theorem matchIncludegraphics_sound {cs : List Char}
    {pr : Option (List Char) × List Char} {rest : List Char}
    (h : matchIncludegraphics cs = some (pr, rest)) :
    igReconstruct pr.1 pr.2 ++ rest = cs := by
  unfold matchIncludegraphics at h
  split at h
  · exact absurd h (by simp)
  · rename_i r0 hstrip
    have hcs := stripLit_sound hstrip
    split at h
    · rename_i r1
      split at h
      · rename_i r2 heq
        obtain ⟨ho, hr⟩ := parseBracedPath_sound h
        have hsplit : List.takeWhile (fun c => c != ']') r1
            ++ List.dropWhile (fun c => c != ']') r1 = r1 := by
          simp
        rw [heq] at hsplit
        subst hcs
        simp only [igReconstruct, ho, hr]
        conv_rhs => rw [← hsplit]
        simp [hr]
      · exact absurd h (by simp)
    · rename_i hnotbr
      obtain ⟨ho, hr⟩ := parseBracedPath_sound h
      subst hcs
      simp only [igReconstruct, ho, hr]
      simp

theorem matchIncludegraphics_none_head {c : Char} {t : List Char} (hne : c ≠ '\\') :
    matchIncludegraphics (c :: t) = none := by
  unfold matchIncludegraphics
  have h1 : igLit = '\\' :: ("includegraphics".toList) := rfl
  rw [h1, stripLit_none_head hne]

theorem transformAnimatedResource_nil (optsGroup : Option (List Char))
    (path : List Char) :
    transformAnimatedResource [] optsGroup path = igReconstruct optsGroup path := rfl

/-- C10: calling the animated-resource post-processing with an empty record
list is the identity on the accumulated output (and on the whole builder):
every image-inclusion command whose path matches no record is replaced by
its own matched text, and text outside image-inclusion commands is kept by
the scan as is. -/
theorem c10_empty_records_identity :
    (∀ b : DocumentBuilder, process_animated_resources b [] = b) ∧
    (∀ (rs : List AnimatedResource) (optsGroup : Option (List Char)) (path : List Char),
      lookupAnimated rs path = none →
      transformAnimatedResource rs optsGroup path = igReconstruct optsGroup path) := by
  constructor
  · intro b
    unfold process_animated_resources
    have hid : reSubP matchIncludegraphics
        (fun pr => transformAnimatedResource [] pr.1 pr.2) b.output_latex_content
        = b.output_latex_content := by
      apply reSubP_id
      intro cs a rest h
      rw [transformAnimatedResource_nil]
      exact matchIncludegraphics_sound h
    simp [hid]
  · intro rs o p hl
    unfold transformAnimatedResource
    rw [hl]

/-- Witness for C10 at concrete inputs. -/
theorem c10_empty_records_identity_witness :
    process_animated_resources (DocumentBuilder.init false) [] = DocumentBuilder.init false ∧
    transformAnimatedResource
        [AnimatedResource.mk ("a.gif".toList) ("res/a.gif".toList) 2]
        none ("b.png".toList)
      = igReconstruct none ("b.png".toList) := by
  constructor
  · exact c10_empty_records_identity.1 (DocumentBuilder.init false)
  · exact c10_empty_records_identity.2 _ none _ (by decide)

theorem stripLit_append (lit r : List Char) : stripLit lit (lit ++ r) = some r := by
  unfold stripLit
  have hp : lit.isPrefixOf (lit ++ r) = true :=
    List.isPrefixOf_iff_prefix.mpr (List.prefix_append _ _)
  simp [hp, List.drop_left]

theorem reSubP_step {α : Type} (m : List Char → Option (α × List Char))
    (repl : α → List Char) {s : List Char} {a : α} {rest : List Char}
    (hs : s ≠ []) (h : m s = some (a, rest)) (hlen : rest.length < s.length) :
    reSubP m repl s = repl a ++ reSubP m repl rest := by
  cases s with
  | nil => exact absurd rfl hs
  | cons c cs =>
    exact reSubP_cons_some m repl c cs a rest h (by simpa using hlen)

theorem reFindAll_step {α : Type} (m : List Char → Option (α × List Char))
    {s : List Char} {a : α} {rest : List Char}
    (hs : s ≠ []) (h : m s = some (a, rest)) (hlen : rest.length < s.length) :
    reFindAll m s = a :: reFindAll m rest := by
  cases s with
  | nil => exact absurd rfl hs
  | cons c cs =>
    exact reFindAll_cons_some m c cs a rest h (by simpa using hlen)

theorem matchIncludegraphics_at_cmd {p post : List Char} (hp : p ≠ [])
    (hbr : '\x7d' ∉ p) :
    matchIncludegraphics (igReconstruct none p ++ post) = some ((none, p), post) := by
  have hshape : igReconstruct none p ++ post
      = igLit ++ ('\x7b' :: (p ++ ('\x7d' :: post))) := by
    simp [igReconstruct]
  rw [hshape]
  unfold matchIncludegraphics
  rw [stripLit_append]
  have hq : ∀ c ∈ p, (fun c => c != '\x7d') c = true := by
    intro c hc
    simp only [bne_iff_ne, ne_eq]
    intro hceq
    exact hbr (hceq ▸ hc)
  have htake : (p ++ ('\x7d' :: post)).takeWhile (fun c => c != '\x7d') = p := by
    rw [List.takeWhile_append_of_pos hq]
    simp
  have hdrop : (p ++ ('\x7d' :: post)).dropWhile (fun c => c != '\x7d')
      = '\x7d' :: post := by
    rw [List.dropWhile_append_of_pos hq]
    simp
  simp [parseBracedPath, htake, hdrop, hp]

theorem matchIncludegraphics_nil : matchIncludegraphics [] = none := by
  unfold matchIncludegraphics
  have : stripLit igLit [] = none := by decide
  rw [this]

/-- C5: for a record with frame count at least 2, each matched
image-inclusion command for its path is replaced by an animated-image
command with frame rate `1`, base name the record file path with suffix
stripped plus a trailing `-`, first frame `0`, last frame `frame_count - 1`,
preserving existing non-empty per-inclusion options; for frame count `1`, by
a still-image command referencing the `.png` variant.  The third conjunct
performs the replacement inside an accumulated output. -/
theorem c5_animated_substitution
    (rs : List AnimatedResource) (ar : AnimatedResource)
    (optsGroup : Option (List Char)) (p : List Char)
    (hl : lookupAnimated rs p = some ar) :
    ((2 : Int) ≤ ar.frame_count →
      transformAnimatedResource rs optsGroup p =
        ("\\animategraphics[".toList)
          ++ (match optsGroup with
              | some o => if o ≠ [] then animDefaultOptions ++ (',' :: o)
                          else animDefaultOptions
              | none => animDefaultOptions)
          ++ ("]\x7b1\x7d\x7b".toList)
          ++ (withSuffix ar.file_path [] ++ ['-'])
          ++ ("\x7d\x7b0\x7d\x7b".toList)
          ++ (toString (ar.frame_count - 1)).toList
          ++ ("\x7d".toList)) ∧
    (ar.frame_count = 1 →
      transformAnimatedResource rs optsGroup p =
        ("\\includegraphics\x7b".toList) ++ withSuffix ar.file_path (".png".toList)
          ++ ("\x7d".toList)) ∧
    (∀ (b : DocumentBuilder) (pre post : List Char),
      '\\' ∉ pre → '\\' ∉ post → p ≠ [] → '\x7d' ∉ p →
      (process_animated_resources
          { b with output_latex_content := pre ++ igReconstruct none p ++ post }
          rs).output_latex_content
        = pre ++ transformAnimatedResource rs none p ++ post) := by
  refine ⟨?_, ?_, ?_⟩
  · intro h2
    unfold transformAnimatedResource
    rw [hl]
    have hne : ar.frame_count ≠ 1 := by omega
    simp [hne]
  · intro h1
    unfold transformAnimatedResource
    rw [hl]
    simp [h1]
  · intro b pre post hpre hpost hp hbr
    unfold process_animated_resources
    simp only []
    have hm : matchIncludegraphics (igReconstruct none p ++ post)
        = some ((none, p), post) := matchIncludegraphics_at_cmd hp hbr
    have hcmdpos : 0 < (igReconstruct none p).length := by
      simp [igReconstruct, igLit]
    have hne : igReconstruct none p ++ post ≠ [] := by
      intro hnil
      rw [List.append_eq_nil] at hnil
      rw [hnil.1] at hcmdpos
      simp at hcmdpos
    have hlen : post.length < (igReconstruct none p ++ post).length := by
      simp only [List.length_append]
      omega
    have hstep := reSubP_step matchIncludegraphics
      (fun pr => transformAnimatedResource rs pr.1 pr.2) hne hm hlen
    have hpost_id : reSubP matchIncludegraphics
        (fun pr => transformAnimatedResource rs pr.1 pr.2) post = post := by
      apply reSubP_noMatch
      intro s' hs'
      cases s' with
      | nil => exact matchIncludegraphics_nil
      | cons c t =>
        have hc : c ∈ post := (List.IsSuffix.subset hs') (by simp)
        exact matchIncludegraphics_none_head (fun h' => hpost (h' ▸ hc))
    have hleft : reSubP matchIncludegraphics
        (fun pr => transformAnimatedResource rs pr.1 pr.2)
        (pre ++ (igReconstruct none p ++ post))
        = pre ++ reSubP matchIncludegraphics
            (fun pr => transformAnimatedResource rs pr.1 pr.2)
            (igReconstruct none p ++ post) := by
      apply reSubP_append_left
      intro p' hp' hpne
      cases p' with
      | nil => exact absurd rfl hpne
      | cons c t =>
        have hc : c ∈ pre := (List.IsSuffix.subset hp') (by simp)
        rw [List.cons_append]
        exact matchIncludegraphics_none_head (fun h' => hpre (h' ▸ hc))
    rw [List.append_assoc, hleft, hstep, hpost_id]
    simp

/-- Witness for C5 at the spec example: frame count 3 for `anim.gif` gives an
animated-image command with frame range 0..2 and base name `anim-`. -/
theorem c5_animated_substitution_witness :
    transformAnimatedResource
        [AnimatedResource.mk ("anim.gif".toList) ("anim.gif".toList) 3]
        none ("anim.gif".toList)
      = ("\\animategraphics[controls=all,keepaspectratio,loop,width=\\linewidth]\x7b1\x7d\x7banim-\x7d\x7b0\x7d\x7b2\x7d".toList) ∧
    (process_animated_resources
        { DocumentBuilder.init false with output_latex_content :=
            ("A ".toList) ++ igReconstruct none ("anim.gif".toList) ++ (" B".toList) }
        [AnimatedResource.mk ("anim.gif".toList) ("anim.gif".toList) 3]).output_latex_content
      = ("A ".toList) ++ transformAnimatedResource
          [AnimatedResource.mk ("anim.gif".toList) ("anim.gif".toList) 3]
          none ("anim.gif".toList) ++ (" B".toList) := by
  have h := c5_animated_substitution
      [AnimatedResource.mk ("anim.gif".toList) ("anim.gif".toList) 3]
      (AnimatedResource.mk ("anim.gif".toList) ("anim.gif".toList) 3)
      none ("anim.gif".toList) (by decide)
  constructor
  · rw [h.1 (by decide)]
    decide
  · exact h.2.2 (DocumentBuilder.init false) ("A ".toList) (" B".toList)
      (by decide) (by decide) (by decide) (by decide)

theorem dedupInto_nil (acc : List (List Char)) : dedupInto acc [] = acc := rfl

theorem dedupInto_cons (acc : List (List Char)) (x : List Char)
    (xs : List (List Char)) :
    dedupInto acc (x :: xs) = dedupInto (insertIfAbsent acc x) xs := rfl

theorem classifyFold_spec (ts : List (List Char)) (b : DocumentBuilder) :
    ts.foldl classifyHrefTarget b =
      { b with
        url_paths_embedded := dedupInto b.url_paths_embedded (ts.filter isTxtTarget)
        url_paths_about := dedupInto b.url_paths_about (ts.filter isAboutTarget) } := by
  induction ts generalizing b with
  | nil => simp [dedupInto_nil]
  | cons t ts ih =>
    rw [List.foldl_cons, ih]
    cases h1 : isTxtTarget t with
    | true =>
      have h1' : (".txt".toList).isSuffixOf t = true := h1
      have hc : classifyHrefTarget b t =
          { b with url_paths_embedded := insertIfAbsent b.url_paths_embedded t } := by
        unfold classifyHrefTarget
        rw [if_pos h1']
      have hf1 : List.filter isTxtTarget (t :: ts) = t :: List.filter isTxtTarget ts := by
        rw [List.filter_cons, h1]
        simp
      have hab : isAboutTarget t = false := by
        unfold isAboutTarget
        rw [h1']
        rfl
      have hf2 : List.filter isAboutTarget (t :: ts) = List.filter isAboutTarget ts := by
        rw [List.filter_cons, hab]
        simp
      rw [hc, hf1, hf2, dedupInto_cons]
    | false =>
      have h1' : (".txt".toList).isSuffixOf t = false := h1
      have hf1 : List.filter isTxtTarget (t :: ts) = List.filter isTxtTarget ts := by
        rw [List.filter_cons, h1]
        simp
      cases h2 : ("about=".toList).isPrefixOf t with
      | true =>
        have hc : classifyHrefTarget b t =
            { b with url_paths_about := insertIfAbsent b.url_paths_about t } := by
          unfold classifyHrefTarget
          rw [if_neg (by rw [h1']; simp), if_pos h2]
        have hab : isAboutTarget t = true := by
          unfold isAboutTarget
          rw [h1', h2]
          rfl
        have hf2 : List.filter isAboutTarget (t :: ts)
            = t :: List.filter isAboutTarget ts := by
          rw [List.filter_cons, hab]
          simp
        rw [hc, hf1, hf2, dedupInto_cons]
      | false =>
        have hc : classifyHrefTarget b t = b := by
          unfold classifyHrefTarget
          rw [if_neg (by rw [h1']; simp), if_neg (by rw [h2]; simp)]
        have hab : isAboutTarget t = false := by
          unfold isAboutTarget
          rw [h2]
          simp
        have hf2 : List.filter isAboutTarget (t :: ts)
            = List.filter isAboutTarget ts := by
          rw [List.filter_cons, hab]
          simp
        rw [hc, hf1, hf2]

theorem parse_latex_links_spec (b : DocumentBuilder) (content : List Char) :
    parse_latex_links b content =
      { b with
        url_paths_resources := dedupInto b.url_paths_resources (igPaths content)
        url_paths_embedded :=
          dedupInto b.url_paths_embedded ((hrefTargets content).filter isTxtTarget)
        url_paths_about :=
          dedupInto b.url_paths_about ((hrefTargets content).filter isAboutTarget) } := by
  unfold parse_latex_links
  simp only []
  rw [classifyFold_spec]

theorem parse_latex_links_output (b : DocumentBuilder) (s : List Char) :
    (parse_latex_links b s).output_latex_content = b.output_latex_content := by
  rw [parse_latex_links_spec]

theorem parse_latex_links_is_spaced (b : DocumentBuilder) (s : List Char) :
    (parse_latex_links b s).is_spaced = b.is_spaced := by
  rw [parse_latex_links_spec]

theorem parse_latex_links_has_appendix (b : DocumentBuilder) (s : List Char) :
    (parse_latex_links b s).output_has_appendix = b.output_has_appendix := by
  rw [parse_latex_links_spec]

theorem append_latex_content_output (b : DocumentBuilder) (s : List Char) :
    (append_latex_content b s).output_latex_content
      = b.output_latex_content ++ s := by
  unfold append_latex_content
  simp only []
  rw [parse_latex_links_output]

theorem append_latex_content_is_spaced (b : DocumentBuilder) (s : List Char) :
    (append_latex_content b s).is_spaced = b.is_spaced := by
  unfold append_latex_content
  simp only []
  rw [parse_latex_links_is_spaced]

theorem append_latex_content_has_appendix (b : DocumentBuilder) (s : List Char) :
    (append_latex_content b s).output_has_appendix = b.output_has_appendix := by
  unfold append_latex_content
  simp only []
  rw [parse_latex_links_has_appendix]

theorem append_latex_content_page_output (b : DocumentBuilder) (s : List Char) :
    (append_latex_content_page b s).output_latex_content
      = b.output_latex_content ++ pageBreakIf b.is_spaced ++ s := by
  unfold append_latex_content_page pageBreakIf
  cases hsp : b.is_spaced <;>
    simp [append_latex_content_output]

theorem append_latex_content_page_is_spaced (b : DocumentBuilder) (s : List Char) :
    (append_latex_content_page b s).is_spaced = b.is_spaced := by
  unfold append_latex_content_page
  cases hsp : b.is_spaced <;>
    simp [append_latex_content_is_spaced, hsp]

theorem append_latex_content_page_has_appendix (b : DocumentBuilder) (s : List Char) :
    (append_latex_content_page b s).output_has_appendix = b.output_has_appendix := by
  unfold append_latex_content_page
  cases hsp : b.is_spaced <;>
    simp [append_latex_content_has_appendix, hsp]

theorem append_problem_latex_content_output (b : DocumentBuilder) (s : List Char) :
    (append_problem_latex_content b s).output_latex_content
      = b.output_latex_content ++ pageBreakIf b.is_spaced ++ s ++ doubleNewline := by
  unfold append_problem_latex_content
  rw [append_latex_content_output, append_latex_content_page_output]

theorem append_problem_latex_content_is_spaced (b : DocumentBuilder) (s : List Char) :
    (append_problem_latex_content b s).is_spaced = b.is_spaced := by
  unfold append_problem_latex_content
  rw [append_latex_content_is_spaced, append_latex_content_page_is_spaced]

theorem append_problem_latex_content_has_appendix (b : DocumentBuilder) (s : List Char) :
    (append_problem_latex_content b s).output_has_appendix = b.output_has_appendix := by
  unfold append_problem_latex_content
  rw [append_latex_content_has_appendix, append_latex_content_page_has_appendix]

theorem append_about_latex_content_output (b : DocumentBuilder) (s : List Char) :
    (append_about_latex_content b s).output_latex_content
      = b.output_latex_content
          ++ (if b.output_has_appendix then [] else appendixHeader)
          ++ pageBreakIf b.is_spaced ++ s ++ doubleNewline := by
  unfold append_about_latex_content
  cases hap : b.output_has_appendix <;>
    simp [append_latex_content_output, append_latex_content_page_output,
      append_latex_content_page_is_spaced, append_latex_content_is_spaced,
      pageBreakIf]

theorem append_about_latex_content_is_spaced (b : DocumentBuilder) (s : List Char) :
    (append_about_latex_content b s).is_spaced = b.is_spaced := by
  unfold append_about_latex_content
  cases hap : b.output_has_appendix <;>
    simp [append_latex_content_is_spaced, append_latex_content_page_is_spaced]

theorem append_about_latex_content_has_appendix (b : DocumentBuilder) (s : List Char) :
    (append_about_latex_content b s).output_has_appendix = true := by
  unfold append_about_latex_content
  cases hap : b.output_has_appendix <;>
    simp [append_latex_content_has_appendix, append_latex_content_page_has_appendix, hap]

/-- C2 (amended): when spaced mode is enabled, the page-break marker is
inserted before every appended puzzle or appendix page fragment, including
the very first fragment of its section; when spaced mode is disabled, no
page-break marker is ever inserted.  Stated as exact output equations for
all four append operations. -/
theorem c2_page_break_on_every_fragment (b : DocumentBuilder) (s : List Char) :
    (append_problem_latex_content b s).output_latex_content
      = b.output_latex_content ++ pageBreakIf b.is_spaced ++ s ++ doubleNewline
    ∧ (append_about_latex_content b s).output_latex_content
      = b.output_latex_content
          ++ (if b.output_has_appendix then [] else appendixHeader)
          ++ pageBreakIf b.is_spaced ++ s ++ doubleNewline
    ∧ (append_latex_content_page b s).output_latex_content
      = b.output_latex_content ++ pageBreakIf b.is_spaced ++ s
    ∧ (append_latex_content b s).output_latex_content
      = b.output_latex_content ++ s
    ∧ pageBreakIf true = ("\n\\newpage\n\n").toList
    ∧ pageBreakIf false = [] :=
  ⟨append_problem_latex_content_output b s, append_about_latex_content_output b s,
   append_latex_content_page_output b s, append_latex_content_output b s, rfl, rfl⟩

/-- C2 counterexample: with spaced mode enabled, the very first appended
puzzle fragment is already preceded by the page-break marker `\n\newpage\n\n`,
contradicting the claim that a marker appears only when the fragment is not
the very first of its section (which would give output `A\n\n` here). -/
theorem c2_counterexample :
    (append_problem_latex_content (DocumentBuilder.init true)
        ("A".toList)).output_latex_content
      = ("\n\\newpage\n\nA\n\n").toList
    ∧ (append_problem_latex_content (DocumentBuilder.init true)
        ("A".toList)).output_latex_content
      ≠ ("A\n\n").toList := by
  constructor
  · decide
  · decide

theorem runOp_is_spaced (b : DocumentBuilder) (op : BuilderOp) :
    (runOp b op).is_spaced = b.is_spaced := by
  cases op <;>
    simp [runOp, append_problem_latex_content_is_spaced,
      append_about_latex_content_is_spaced, append_latex_content_is_spaced,
      append_latex_content_page_is_spaced]

theorem runOp_has_appendix_of_true (b : DocumentBuilder) (op : BuilderOp)
    (hb : b.output_has_appendix = true) :
    (runOp b op).output_has_appendix = true := by
  cases op <;>
    simp [runOp, append_problem_latex_content_has_appendix,
      append_about_latex_content_has_appendix, append_latex_content_has_appendix,
      append_latex_content_page_has_appendix, hb]

theorem runOp_output_of_true (b : DocumentBuilder) (op : BuilderOp)
    (hb : b.output_has_appendix = true) :
    (runOp b op).output_latex_content
      = b.output_latex_content ++ renderPlain b.is_spaced op := by
  cases op with
  | problem s =>
    simp [runOp, renderPlain, append_problem_latex_content_output]
  | about s =>
    simp [runOp, renderPlain, append_about_latex_content_output, hb]
  | literal s =>
    simp [runOp, renderPlain, append_latex_content_output]
  | page s =>
    simp [runOp, renderPlain, append_latex_content_page_output]

theorem runOps_of_has_appendix (ops : List BuilderOp) :
    ∀ b : DocumentBuilder, b.output_has_appendix = true →
      (runOps b ops).output_latex_content
        = b.output_latex_content ++ (ops.map (renderPlain b.is_spaced)).flatten
      ∧ (runOps b ops).output_has_appendix = true
      ∧ (runOps b ops).is_spaced = b.is_spaced := by
  induction ops with
  | nil =>
    intro b hb
    exact ⟨by simp [runOps], hb, rfl⟩
  | cons op ops ih =>
    intro b hb
    have hsp := runOp_is_spaced b op
    have hha := runOp_has_appendix_of_true b op hb
    have hout := runOp_output_of_true b op hb
    obtain ⟨o1, o2, o3⟩ := ih (runOp b op) hha
    refine ⟨?_, o2, by rw [runOps, List.foldl_cons, ← runOps, o3, hsp]⟩
    rw [runOps, List.foldl_cons, ← runOps, o1, hout, hsp]
    simp

theorem splitFirstAbout_cons_ne (op : BuilderOp) (ops : List BuilderOp)
    (h : ∀ s, op ≠ BuilderOp.about s) :
    splitFirstAbout (op :: ops)
      = match splitFirstAbout ops with
        | some pso => some (op :: pso.1, pso.2.1, pso.2.2)
        | none => none := by
  cases op with
  | about s => exact absurd rfl (h s)
  | problem s => cases hsp : splitFirstAbout ops <;> simp [splitFirstAbout, hsp]
  | literal s => cases hsp : splitFirstAbout ops <;> simp [splitFirstAbout, hsp]
  | page s => cases hsp : splitFirstAbout ops <;> simp [splitFirstAbout, hsp]

theorem splitFirstAbout_pre_no_about (ops : List BuilderOp) :
    ∀ pre s post, splitFirstAbout ops = some (pre, s, post) →
      ∀ s', BuilderOp.about s' ∉ pre := by
  induction ops with
  | nil => intro pre s post h; simp [splitFirstAbout] at h
  | cons op ops ih =>
    intro pre s post h s'
    by_cases hab : ∃ t, op = BuilderOp.about t
    · obtain ⟨t, rfl⟩ := hab
      rw [show splitFirstAbout (BuilderOp.about t :: ops) = some ([], t, ops) from rfl] at h
      simp only [Option.some.injEq, Prod.mk.injEq] at h
      rw [← h.1]
      simp
    · have hne : ∀ u, op ≠ BuilderOp.about u := by
        intro u hu
        exact hab ⟨u, hu⟩
      rw [splitFirstAbout_cons_ne op ops hne] at h
      cases hsp : splitFirstAbout ops with
      | none => rw [hsp] at h; simp at h
      | some pso =>
        rw [hsp] at h
        simp only [Option.some.injEq, Prod.mk.injEq] at h
        obtain ⟨h1, h2, h3⟩ := h
        rw [← h1]
        intro hmem
        rcases List.mem_cons.mp hmem with heq | hmem2
        · exact hne s' heq.symm
        · exact ih pso.1 pso.2.1 pso.2.2 (by rw [hsp]) s' hmem2

theorem runOp_has_appendix_plain (b : DocumentBuilder) (op : BuilderOp)
    (h : ∀ s, op ≠ BuilderOp.about s) :
    (runOp b op).output_has_appendix = b.output_has_appendix := by
  cases op with
  | about s => exact absurd rfl (h s)
  | problem s => simp [runOp, append_problem_latex_content_has_appendix]
  | literal s => simp [runOp, append_latex_content_has_appendix]
  | page s => simp [runOp, append_latex_content_page_has_appendix]

theorem runOp_output_plain (b : DocumentBuilder) (op : BuilderOp)
    (h : ∀ s, op ≠ BuilderOp.about s) :
    (runOp b op).output_latex_content
      = b.output_latex_content ++ renderPlain b.is_spaced op := by
  cases op with
  | about s => exact absurd rfl (h s)
  | problem s => simp [runOp, renderPlain, append_problem_latex_content_output]
  | literal s => simp [runOp, renderPlain, append_latex_content_output]
  | page s => simp [runOp, renderPlain, append_latex_content_page_output]

theorem runOps_split_none (ops : List BuilderOp) :
    ∀ b : DocumentBuilder, b.output_has_appendix = false →
      splitFirstAbout ops = none →
      (runOps b ops).output_latex_content
        = b.output_latex_content ++ (ops.map (renderPlain b.is_spaced)).flatten := by
  induction ops with
  | nil => intro b hb _; simp [runOps]
  | cons op ops ih =>
    intro b hb hsp
    have hne : ∀ s, op ≠ BuilderOp.about s := by
      intro s hs
      subst hs
      rw [show splitFirstAbout (BuilderOp.about s :: ops) = some ([], s, ops) from rfl] at hsp
      simp at hsp
    have hrec : splitFirstAbout ops = none := by
      rw [splitFirstAbout_cons_ne op ops hne] at hsp
      cases h2 : splitFirstAbout ops with
      | none => rfl
      | some pso => rw [h2] at hsp; simp at hsp
    have hflag := runOp_has_appendix_plain b op hne
    rw [hb] at hflag
    have hsp2 := runOp_is_spaced b op
    rw [runOps, List.foldl_cons, ← runOps,
      ih (runOp b op) hflag hrec, runOp_output_plain b op hne, hsp2]
    simp

theorem runOps_split_some (ops : List BuilderOp) :
    ∀ (b : DocumentBuilder) (pre : List BuilderOp) (s : List Char)
      (post : List BuilderOp),
      b.output_has_appendix = false →
      splitFirstAbout ops = some (pre, s, post) →
      (runOps b ops).output_latex_content
        = b.output_latex_content ++ (pre.map (renderPlain b.is_spaced)).flatten
            ++ appendixHeader
            ++ (pageBreakIf b.is_spaced ++ s ++ doubleNewline)
            ++ (post.map (renderPlain b.is_spaced)).flatten := by
  induction ops with
  | nil => intro b pre s post hb h; simp [splitFirstAbout] at h
  | cons op ops ih =>
    intro b pre s post hb h
    by_cases hab : ∃ t, op = BuilderOp.about t
    · obtain ⟨t, rfl⟩ := hab
      rw [show splitFirstAbout (BuilderOp.about t :: ops) = some ([], t, ops) from rfl] at h
      simp only [Option.some.injEq, Prod.mk.injEq] at h
      obtain ⟨h1, h2, h3⟩ := h
      rw [← h1, ← h2, ← h3]
      have hout : (runOp b (BuilderOp.about t)).output_latex_content
          = b.output_latex_content ++ appendixHeader
              ++ (pageBreakIf b.is_spaced ++ t ++ doubleNewline) := by
        simp [runOp, append_about_latex_content_output, hb]
      have hflag : (runOp b (BuilderOp.about t)).output_has_appendix = true := by
        simp [runOp, append_about_latex_content_has_appendix]
      have hsp2 : (runOp b (BuilderOp.about t)).is_spaced = b.is_spaced :=
        runOp_is_spaced b _
      obtain ⟨o1, _, _⟩ := runOps_of_has_appendix ops (runOp b (BuilderOp.about t)) hflag
      rw [runOps, List.foldl_cons, ← runOps, o1, hout, hsp2]
      simp
    · have hne : ∀ u, op ≠ BuilderOp.about u := fun u hu => hab ⟨u, hu⟩
      rw [splitFirstAbout_cons_ne op ops hne] at h
      cases h2 : splitFirstAbout ops with
      | none => rw [h2] at h; simp at h
      | some pso =>
        rw [h2] at h
        simp only [Option.some.injEq, Prod.mk.injEq] at h
        obtain ⟨h1, h3, h4⟩ := h
        subst h3; subst h4
        have hflag := runOp_has_appendix_plain b op hne
        rw [hb] at hflag
        have hsp2 := runOp_is_spaced b op
        rw [runOps, List.foldl_cons, ← runOps,
          ih (runOp b op) pso.1 pso.2.1 pso.2.2 hflag (by rw [h2]),
          runOp_output_plain b op hne, hsp2, ← h1]
        simp

/-- C9 (amended): across any operation sequence on a fresh assembler, the
appendix section header is appended exactly once, exactly at the first
appendix append, emitted before that fragment's page break and content (the
page-break marker of spaced mode stands between the header and the
fragment's content); puzzle, literal and page appends contribute exactly
their own rendering, never the header. -/
theorem c9_appendix_header_once (sp : Bool) (ops : List BuilderOp) :
    (splitFirstAbout ops = none →
      (runOps (DocumentBuilder.init sp) ops).output_latex_content
        = (ops.map (renderPlain sp)).flatten) ∧
    (∀ (pre : List BuilderOp) (s : List Char) (post : List BuilderOp),
      splitFirstAbout ops = some (pre, s, post) →
      (runOps (DocumentBuilder.init sp) ops).output_latex_content
        = (pre.map (renderPlain sp)).flatten ++ appendixHeader
            ++ (pageBreakIf sp ++ s ++ doubleNewline)
            ++ (post.map (renderPlain sp)).flatten
      ∧ ∀ s', BuilderOp.about s' ∉ pre) := by
  constructor
  · intro h
    have := runOps_split_none ops (DocumentBuilder.init sp) rfl h
    simpa using this
  · intro pre s post h
    constructor
    · have := runOps_split_some ops (DocumentBuilder.init sp) pre s post rfl h
      simpa using this
    · exact splitFirstAbout_pre_no_about ops pre s post h

/-- Witness for C9 at a concrete operation sequence: one puzzle append, then
two appendix appends, unspaced. -/
theorem c9_appendix_header_once_witness :
    (runOps (DocumentBuilder.init false)
        [BuilderOp.problem ("P".toList), BuilderOp.about ("A".toList),
         BuilderOp.about ("B".toList)]).output_latex_content
      = ("P\n\n".toList) ++ appendixHeader ++ ("A\n\nB\n\n".toList)
    ∧ BuilderOp.about ("A".toList) ∉ [BuilderOp.problem ("P".toList)] := by
  have h := (c9_appendix_header_once false
      [BuilderOp.problem ("P".toList), BuilderOp.about ("A".toList),
       BuilderOp.about ("B".toList)]).2
      [BuilderOp.problem ("P".toList)] ("A".toList)
      [BuilderOp.about ("B".toList)] (by rfl)
  constructor
  · rw [h.1]
    decide
  · exact h.2 ("A".toList)

/-- C9 counterexample: with spaced mode enabled, the first appendix append
produces the header followed by the page-break marker and only then the
fragment content, so the header is not immediately before the content (the
claim's output would contain the header directly followed by `A`). -/
theorem c9_counterexample :
    (append_about_latex_content (DocumentBuilder.init true)
        ("A".toList)).output_latex_content
      = appendixHeader ++ ("\n\\newpage\n\nA\n\n".toList)
    ∧ containsSub (appendixHeader ++ ("A".toList))
        ((append_about_latex_content (DocumentBuilder.init true)
          ("A".toList)).output_latex_content) = false := by
  constructor
  · decide
  · decide

/-- One `\definecolor` line of the generated preamble (line 135). -/
def colorDefLine (p : List Char × List Char) : List Char :=
  ("\\definecolor\x7b".toList) ++ p.2 ++ ("\x7d\x7bHTML\x7d\x7b".toList)
    ++ p.1 ++ ("\x7d\n".toList)

theorem registerColor_new (m : List (List Char × List Char)) (c : List Char)
    (h : ∀ p ∈ m, p.1 ≠ c) :
    registerColor m c
      = (m ++ [(c, customColorName m.length)], customColorName m.length) := by
  unfold registerColor
  have hf : m.find? (fun p => p.1 == c) = none := by
    rw [List.find?_eq_none]
    intro p hp
    simp [h p hp]
  rw [hf]

theorem registerColor_seen (m : List (List Char × List Char)) (c : List Char)
    (p : List Char × List Char) (hp : p ∈ m) (hc : p.1 = c) :
    (registerColor m c).1 = m := by
  unfold registerColor
  cases hf : m.find? (fun q => q.1 == c) with
  | some q => rfl
  | none =>
    exfalso
    have := List.find?_eq_none.mp hf p hp
    simp [hc] at this

theorem buildLatexPreamble_flatten (m : List (List Char × List Char)) :
    buildLatexPreamble m = (m.map colorDefLine).flatten := by
  have H : ∀ (l : List (List Char × List Char)) (a : List Char),
      List.foldl (fun acc p =>
        acc ++ ("\\definecolor\x7b".toList) ++ p.2 ++ ("\x7d\x7bHTML\x7d\x7b".toList)
          ++ p.1 ++ ("\x7d\n".toList)) a l
        = a ++ (l.map colorDefLine).flatten := by
    intro l
    induction l with
    | nil => intro a; simp
    | cons p ps ih =>
      intro a
      rw [List.foldl_cons, ih]
      simp [colorDefLine]
  unfold buildLatexPreamble
  simpa using H m []

/-- C3: the first encounter of a colour value appends exactly one palette
entry whose generated name is determined solely by the number of entries
already present; a later encounter of a seen value leaves the palette
untouched; the generated preamble emits one colour-definition line per entry
in insertion order; and feeding two distinct values in order yields
`CustomColor0`, `CustomColor1` deterministically. -/
theorem c3_palette_stability :
    (∀ (m : List (List Char × List Char)) (c : List Char),
      (∀ p ∈ m, p.1 ≠ c) →
      registerColor m c
        = (m ++ [(c, customColorName m.length)], customColorName m.length)) ∧
    (∀ (m : List (List Char × List Char)) (c : List Char)
      (p : List Char × List Char),
      p ∈ m → p.1 = c → (registerColor m c).1 = m) ∧
    (∀ m : List (List Char × List Char),
      buildLatexPreamble m = (m.map colorDefLine).flatten) ∧
    (∀ c1 c2 : List Char, c1 ≠ c2 →
      registerColors [] [c1, c2]
        = [(c1, customColorName 0), (c2, customColorName 1)]) := by
  refine ⟨registerColor_new, registerColor_seen, buildLatexPreamble_flatten, ?_⟩
  intro c1 c2 hne
  have h1 := registerColor_new [] c1 (by simp)
  have h2 := registerColor_new [(c1, customColorName 0)] c2 (by
    intro p hp
    simp only [List.mem_singleton] at hp
    rw [hp]
    exact hne)
  unfold registerColors
  rw [List.foldl_cons, List.foldl_cons, List.foldl_nil, h1]
  simp only [List.nil_append, List.length_nil]
  rw [h2]
  simp

/-- Witness for C3 at concrete colour values. -/
theorem c3_palette_stability_witness :
    registerColor [] ("ff0000".toList)
      = ([(("ff0000".toList), customColorName 0)], customColorName 0)
    ∧ (registerColor [(("ff0000".toList), customColorName 0)]
        ("ff0000".toList)).1
      = [(("ff0000".toList), customColorName 0)]
    ∧ registerColors [] [("ff0000".toList), ("00ff00".toList)]
      = [(("ff0000".toList), customColorName 0),
         (("00ff00".toList), customColorName 1)] := by
  refine ⟨?_, ?_, ?_⟩
  · exact c3_palette_stability.1 [] _ (by simp)
  · exact c3_palette_stability.2.1 _ _ (("ff0000".toList), customColorName 0)
      (by simp) rfl
  · exact c3_palette_stability.2.2.2 _ _ (by decide)

theorem colorMatchValue_hash (tl : List Char)
    (ht : tl.takeWhile colorValueChar ≠ []) :
    colorMatchValue (("color:".toList) ++ (' ' :: '#' :: tl))
      = some (tl.takeWhile colorValueChar) := by
  unfold colorMatchValue
  rw [stripLit_append]
  have h1 : pyIsSpace ' ' = true := by decide
  have h2 : pyIsSpace '#' = false := by decide
  simp [List.dropWhile_cons, h1, h2, ht]

theorem filter_ite_singleton (P : List Char → Bool) (b : Bool) (k : List Char)
    (hk : P k = false) :
    List.filter P (if b then [k] else []) = [] := by
  cases b <;> simp [List.filter, hk]

/-- C1 counterexample: the colour rule uses an anchored `re.match` on the
lower-cased declaration string, so (1) a declaration string merely containing
`color: #FF0000` after another declaration yields no colour tag at all, and
(2) when the colour declaration is first, the captured value is lower-cased
rather than case-preserved (`ff0000`, not `FF0000`). -/
theorem c1_counterexample :
    transform_style_to_classes ("font-weight: bold; color: #FF0000".toList)
      = [("strong".toList)]
    ∧ transform_style_to_classes ("color: #FF0000".toList)
      = [("__COLOR__ff0000".toList)]
    ∧ ("__COLOR__ff0000".toList) ≠ ("__COLOR__FF0000".toList) := by
  refine ⟨?_, ?_, ?_⟩
  · decide
  · decide
  · decide

/-- C1 (amended): for every style declaration string that starts with
`color: #<value>` (value non-empty, of characters admissible in the capture
class, stable under lower-casing as hex digits are) and continues with
nothing or with `;`-separated further declarations, the classifier returns
exactly one ad hoc colour tag, parameterized by the lower-cased value. -/
theorem c1_color_classifier (v rest : List Char)
    (hv : v ≠ [])
    (hvc : ∀ c ∈ v, colorValueChar c = true ∧ colorValueChar (Char.toLower c) = true)
    (hrest : rest = [] ∨ ∃ r, rest = ';' :: r) :
    (transform_style_to_classes (("color: #".toList) ++ v ++ rest)).filter
        (fun t => ("__COLOR__".toList).isPrefixOf t)
      = [("__COLOR__".toList) ++ v.map Char.toLower] := by
  have hmap : (("color: #".toList) ++ v ++ rest).map Char.toLower
      = ("color: #".toList) ++ v.map Char.toLower ++ rest.map Char.toLower := by
    have hc : List.map Char.toLower ("color: #".toList) = ("color: #".toList) := by
      decide
    simp [List.map_append, hc]
  have hlv : ∀ c ∈ v.map Char.toLower, colorValueChar c = true := by
    intro c hc
    obtain ⟨d, hd, rfl⟩ := List.mem_map.mp hc
    exact (hvc d hd).2
  have htakeLR : (rest.map Char.toLower).takeWhile colorValueChar = [] := by
    rcases hrest with rfl | ⟨r, rfl⟩
    · rfl
    · simp only [List.map_cons]
      have : Char.toLower ';' = ';' := by decide
      rw [this]
      simp [List.takeWhile_cons, colorValueChar, pyIsSpace]
  have htake : (v.map Char.toLower ++ rest.map Char.toLower).takeWhile colorValueChar
      = v.map Char.toLower := by
    rw [List.takeWhile_append_of_pos hlv, htakeLR]
    simp
  have hcap : colorMatchValue
      (("color: #".toList) ++ v.map Char.toLower ++ rest.map Char.toLower)
      = some (v.map Char.toLower) := by
    have he : ("color: #".toList) ++ v.map Char.toLower ++ rest.map Char.toLower
        = ("color:".toList)
            ++ (' ' :: '#' :: (v.map Char.toLower ++ rest.map Char.toLower)) := by
      simp
    rw [he, colorMatchValue_hash _ (by rw [htake]; simpa using hv), htake]
  unfold transform_style_to_classes
  simp only []
  rw [hmap, hcap]
  simp only [List.filter_append]
  rw [filter_ite_singleton _ _ _ (by decide), filter_ite_singleton _ _ _ (by decide),
    filter_ite_singleton _ _ _ (by decide), filter_ite_singleton _ _ _ (by decide),
    filter_ite_singleton _ _ _ (by decide), filter_ite_singleton _ _ _ (by decide),
    filter_ite_singleton _ _ _ (by decide)]
  have hpre : (fun t => ("__COLOR__".toList).isPrefixOf t)
      (("__COLOR__".toList) ++ v.map Char.toLower) = true := by
    simp only []
    exact List.isPrefixOf_iff_prefix.mpr (List.prefix_append _ _)
  simp [List.filter, hpre]

/-- Witness for C1 at the concrete value `FF0000` followed by a second
declaration. -/
theorem c1_color_classifier_witness :
    (transform_style_to_classes
        (("color: #".toList) ++ ("FF0000".toList) ++ ("; font-weight: bold".toList))).filter
        (fun t => ("__COLOR__".toList).isPrefixOf t)
      = [("__COLOR__ff0000".toList)] := by
  have h := c1_color_classifier ("FF0000".toList) ("; font-weight: bold".toList)
    (by decide) (by decide)
    (Or.inr ⟨(" font-weight: bold".toList), by decide⟩)
  rw [h]
  decide

theorem mem_insertIfAbsent (l : List (List Char)) (x y : List Char) :
    y ∈ insertIfAbsent l x ↔ y ∈ l ∨ y = x := by
  by_cases h : x ∈ l
  · simp only [insertIfAbsent, h, if_true, ite_true]
    exact ⟨Or.inl, fun h' => h'.elim id (fun he => he ▸ h)⟩
  · simp [insertIfAbsent, h]

theorem mem_dedupInto (xs : List (List Char)) :
    ∀ (acc : List (List Char)) (y : List Char),
      y ∈ dedupInto acc xs ↔ y ∈ acc ∨ y ∈ xs := by
  induction xs with
  | nil => intro acc y; simp [dedupInto_nil]
  | cons x xs ih =>
    intro acc y
    rw [dedupInto_cons, ih, mem_insertIfAbsent]
    simp only [List.mem_cons]
    constructor
    · rintro ((hy | rfl) | hy)
      · exact Or.inl hy
      · exact Or.inr (Or.inl rfl)
      · exact Or.inr (Or.inr hy)
    · rintro (hy | (rfl | hy))
      · exact Or.inl (Or.inl hy)
      · exact Or.inl (Or.inr rfl)
      · exact Or.inr hy

theorem nodup_insertIfAbsent (l : List (List Char)) (x : List Char)
    (h : l.Nodup) : (insertIfAbsent l x).Nodup := by
  by_cases hx : x ∈ l <;> simp [insertIfAbsent, hx, h, List.nodup_append]

theorem nodup_dedupInto (xs : List (List Char)) :
    ∀ acc : List (List Char), acc.Nodup → (dedupInto acc xs).Nodup := by
  induction xs with
  | nil => intro acc h; simpa [dedupInto_nil] using h
  | cons x xs ih =>
    intro acc h
    rw [dedupInto_cons]
    exact ih _ (nodup_insertIfAbsent acc x h)

/-- C6: on a fresh builder, scanning a markup blob puts exactly the
`.txt`-suffixed hyperlink targets in the attachment set, exactly the
`about=`-prefixed (and not `.txt`-suffixed) targets in the appendix
cross-reference set, every image-inclusion path in the resource set, each
set deduplicated, and no target in both the attachment and cross-reference
sets. -/
theorem c6_link_classification (sp : Bool) (content : List Char) :
    (parse_latex_links (DocumentBuilder.init sp) content).url_paths_resources
      = dedupInto [] (igPaths content)
    ∧ (parse_latex_links (DocumentBuilder.init sp) content).url_paths_embedded
      = dedupInto [] ((hrefTargets content).filter isTxtTarget)
    ∧ (parse_latex_links (DocumentBuilder.init sp) content).url_paths_about
      = dedupInto [] ((hrefTargets content).filter isAboutTarget)
    ∧ (parse_latex_links (DocumentBuilder.init sp) content).url_paths_resources.Nodup
    ∧ (parse_latex_links (DocumentBuilder.init sp) content).url_paths_embedded.Nodup
    ∧ (parse_latex_links (DocumentBuilder.init sp) content).url_paths_about.Nodup
    ∧ ∀ t, t ∈ (parse_latex_links (DocumentBuilder.init sp) content).url_paths_embedded →
        t ∉ (parse_latex_links (DocumentBuilder.init sp) content).url_paths_about := by
  rw [parse_latex_links_spec]
  refine ⟨rfl, rfl, rfl, ?_, ?_, ?_, ?_⟩
  · exact nodup_dedupInto _ [] List.nodup_nil
  · exact nodup_dedupInto _ [] List.nodup_nil
  · exact nodup_dedupInto _ [] List.nodup_nil
  · intro t hmem hmem'
    simp only [] at hmem hmem'
    have h1 := (mem_dedupInto _ [] t).mp hmem
    have h2 := (mem_dedupInto _ [] t).mp hmem'
    simp only [List.not_mem_nil, false_or] at h1 h2
    have e1 := (List.mem_filter.mp h1).2
    have e2 := (List.mem_filter.mp h2).2
    unfold isAboutTarget at e2
    rw [show isTxtTarget t = (".txt".toList).isSuffixOf t from rfl] at e1
    rw [e1] at e2
    simp at e2

/-- Witness for C6 at the spec example: one `.txt` link and one `about=`
link. -/
theorem c6_link_classification_witness :
    (parse_latex_links (DocumentBuilder.init false)
        ("\\href\x7bnotes.txt\x7d\x7bn\x7d and \\href\x7babout=faq\x7d\x7bf\x7d".toList)).url_paths_embedded
      = [("notes.txt".toList)]
    ∧ (parse_latex_links (DocumentBuilder.init false)
        ("\\href\x7bnotes.txt\x7d\x7bn\x7d and \\href\x7babout=faq\x7d\x7bf\x7d".toList)).url_paths_about
      = [("about=faq".toList)]
    ∧ ("notes.txt".toList) ∉ (parse_latex_links (DocumentBuilder.init false)
        ("\\href\x7bnotes.txt\x7d\x7bn\x7d and \\href\x7babout=faq\x7d\x7bf\x7d".toList)).url_paths_about := by
  have h := c6_link_classification false
    ("\\href\x7bnotes.txt\x7d\x7bn\x7d and \\href\x7babout=faq\x7d\x7bf\x7d".toList)
  refine ⟨?_, ?_, ?_⟩
  · rw [h.2.1]
    decide
  · rw [h.2.2.1]
    decide
  · apply h.2.2.2.2.2.2
    rw [h.2.1]
    decide

/-- C8: `write` performs all attachment-link, cross-reference and character
rewriting on a local copy of the accumulated output; the builder component
of its result is the argument itself, every field unchanged, and invoking
`write` twice in succession with the same arguments yields identical
document text. -/
theorem c8_write_pure (b : DocumentBuilder) (tpl : List TemplateSeg) :
    (write b tpl).1 = b
    ∧ (write ((write b tpl).1) tpl).2.1 = (write b tpl).2.1
    ∧ (write b tpl).1.color_mappings = b.color_mappings
    ∧ (write b tpl).1.classes = b.classes
    ∧ (write b tpl).1.url_paths_about = b.url_paths_about
    ∧ (write b tpl).1.url_paths_embedded = b.url_paths_embedded
    ∧ (write b tpl).1.url_paths_resources = b.url_paths_resources
    ∧ (write b tpl).1.output_latex_content = b.output_latex_content
    ∧ (write b tpl).1.output_html_debug = b.output_html_debug
    ∧ (write b tpl).1.output_has_appendix = b.output_has_appendix
    ∧ (write b tpl).1.is_spaced = b.is_spaced :=
  ⟨rfl, rfl, rfl, rfl, rfl, rfl, rfl, rfl, rfl, rfl, rfl⟩

theorem replaceAll_nil (pat repl : List Char) : replaceAll pat repl [] = [] := rfl

theorem replaceAll_cons (pat repl : List Char) (c : Char) (cs : List Char) :
    replaceAll pat repl (c :: cs)
      = if pat ≠ [] ∧ pat.isPrefixOf (c :: cs) then
          repl ++ replaceAll pat repl (cs.drop (pat.length - 1))
        else c :: replaceAll pat repl cs := by
  unfold replaceAll
  simp only [List.length_cons, replaceAllFuel]
  split
  · rw [replaceAllFuel_congr pat repl cs.length (cs.drop (pat.length - 1)).length
      (cs.drop (pat.length - 1)) (by simp only [List.length_drop]; omega) le_rfl]
  · rfl

theorem replaceAll_of_not_contains (pat repl : List Char) :
    ∀ s : List Char, containsSub pat s = false → replaceAll pat repl s = s := by
  intro s
  induction s with
  | nil => intro _; rfl
  | cons c cs ih =>
    intro h
    unfold containsSub at h
    simp only [Bool.or_eq_false_iff] at h
    rw [replaceAll_cons]
    rw [if_neg (by intro hc; rw [hc.2] at h; simp at h)]
    rw [ih h.2]

theorem replaceAll_contains (pat repl : List Char) (hp : pat ≠ []) :
    ∀ (u v : List Char),
      ∃ x y, replaceAll pat repl (u ++ pat ++ v) = x ++ repl ++ y := by
  intro u
  induction u with
  | nil =>
    intro v
    cases hpat : pat with
    | nil => exact absurd hpat hp
    | cons p0 pt =>
      subst hpat
      refine ⟨[], replaceAll (p0 :: pt) repl
        ((pt ++ v).drop ((p0 :: pt).length - 1)), ?_⟩
      have hshape : ([] : List Char) ++ (p0 :: pt) ++ v = p0 :: (pt ++ v) := by
        simp
      rw [hshape, replaceAll_cons]
      have hpre : (p0 :: pt).isPrefixOf (p0 :: (pt ++ v)) = true := by
        have he : p0 :: (pt ++ v) = (p0 :: pt) ++ v := by simp
        rw [he]
        exact List.isPrefixOf_iff_prefix.mpr (List.prefix_append _ _)
      rw [if_pos ⟨by simp, hpre⟩]
      simp
  | cons c u ih =>
    intro v
    rw [show (c :: u) ++ pat ++ v = c :: (u ++ pat ++ v) by simp]
    rw [replaceAll_cons]
    by_cases hcond : pat ≠ [] ∧ pat.isPrefixOf (c :: (u ++ pat ++ v))
    · rw [if_pos hcond]
      refine ⟨[], replaceAll pat repl ((u ++ (pat ++ v)).drop (pat.length - 1)), ?_⟩
      simp
    · rw [if_neg hcond]
      obtain ⟨x, y, hxy⟩ := ih v
      exact ⟨c :: x, y, by rw [hxy]; simp⟩

theorem replaceAll_single_append (c : Char) (r : List Char) :
    ∀ a b : List Char,
      replaceAll [c] r (a ++ b) = replaceAll [c] r a ++ replaceAll [c] r b := by
  intro a
  induction a with
  | nil => intro b; simp [replaceAll_nil]
  | cons d a ih =>
    intro b
    rw [List.cons_append, replaceAll_cons, replaceAll_cons]
    by_cases hcd : c = d
    · subst hcd
      rw [if_pos ⟨by simp, by simp [List.isPrefixOf]⟩,
        if_pos ⟨by simp, by simp [List.isPrefixOf]⟩]
      simp only [List.length_cons, List.length_nil, Nat.sub_self, List.drop_zero]
      rw [ih b]
      simp
    · have hnp : ∀ t : List Char, ([c].isPrefixOf (d :: t)) = false := by
        intro t
        simp [List.isPrefixOf, hcd]
      rw [if_neg (by rw [hnp]; simp), if_neg (by rw [hnp]; simp)]
      rw [List.cons_append, ih b]

theorem replaceAll_single_not_mem (c : Char) (r : List Char) :
    ∀ s : List Char, c ∉ s → replaceAll [c] r s = s := by
  intro s
  induction s with
  | nil => intro _; rfl
  | cons d cs ih =>
    intro h
    have hcd : c ≠ d := fun he => h (he ▸ List.mem_cons_self d cs)
    rw [replaceAll_cons, if_neg (by intro hc; simp [List.isPrefixOf, hcd] at hc)]
    rw [ih (fun hm => h (List.mem_cons_of_mem d hm))]

theorem applyCharSubs_preserves_infix (mid : List Char) :
    ∀ (subs : List (Char × List Char)) (a b : List Char),
      (∀ p ∈ subs, p.1 ∉ mid) →
      ∃ x y, applyCharSubs subs (a ++ mid ++ b) = x ++ mid ++ y := by
  intro subs
  induction subs with
  | nil => intro a b _; exact ⟨a, b, rfl⟩
  | cons p subs ih =>
    intro a b h
    have hstep : replaceAll [p.1] p.2 (a ++ mid ++ b)
        = replaceAll [p.1] p.2 a ++ mid ++ replaceAll [p.1] p.2 b := by
      rw [List.append_assoc, replaceAll_single_append, replaceAll_single_append,
        replaceAll_single_not_mem p.1 p.2 mid (h p (by simp))]
      simp
    have := ih (replaceAll [p.1] p.2 a) (replaceAll [p.1] p.2 b)
      (fun q hq => h q (List.mem_cons_of_mem p hq))
    obtain ⟨x, y, hxy⟩ := this
    refine ⟨x, y, ?_⟩
    unfold applyCharSubs
    rw [List.foldl_cons]
    unfold applyCharSubs at hxy
    rw [hstep] at *
    exact hxy

theorem matchMathDD_ne {c : Char} {t : List Char} (h : c ≠ '$') :
    matchMathDD (c :: t) = none := by
  unfold matchMathDD
  split
  · rename_i rest heq
    injection heq with h1 _
    exact absurd h1 h
  · rfl

theorem matchMathS_ne {c : Char} {t : List Char} (h : c ≠ '$') :
    matchMathS (c :: t) = none := by
  unfold matchMathS
  split
  · rename_i rest heq
    injection heq with h1 _
    exact absurd h1 h
  · rfl

theorem matchMathBr_ne {c : Char} {t : List Char} (h : c ≠ '\\') :
    matchMathBr (c :: t) = none := by
  unfold matchMathBr
  split
  · rename_i rest heq
    injection heq with h1 _
    exact absurd h1 h
  · rfl

theorem reSubSt_step {σ : Type} (m : List Char → Option (List Char × List Char))
    (act : List Char → σ → List Char × σ) {s : List Char} {txt rest : List Char}
    (st : σ) (hs : s ≠ []) (h : m s = some (txt, rest))
    (hlen : rest.length < s.length) :
    reSubSt m act s st =
      (((act txt st).1 ++ (reSubSt m act rest (act txt st).2).1),
        (reSubSt m act rest (act txt st).2).2) := by
  cases s with
  | nil => exact absurd rfl hs
  | cons c cs =>
    exact reSubSt_cons_some m act c cs st txt rest h (by simpa using hlen)

theorem matchMathDD_at (post : List Char) :
    matchMathDD (("$$x^2$$".toList) ++ post) = some (("$$x^2$$".toList), post) := by
  have hshape : ("$$x^2$$".toList) ++ post
      = '$' :: '$' :: ('x' :: '^' :: '2' :: '$' :: '$' :: post) := by
    simp
  rw [hshape]
  unfold matchMathDD
  simp [List.takeWhile_cons, List.dropWhile_cons]

theorem protect_noMathS {s : List Char} (h : '$' ∉ s) :
    reSubSt matchMathS markerAct s
      = fun st => (s, st) := by
  funext st
  apply reSubSt_noMatch
  intro s' hs'
  cases s' with
  | nil => rfl
  | cons c t =>
    have hc : c ∈ s := (List.IsSuffix.subset hs') (by simp)
    exact matchMathS_ne (fun he => h (he ▸ hc))

theorem protect_noMathBr {s : List Char} (h : '\\' ∉ s) :
    reSubSt matchMathBr markerAct s
      = fun st => (s, st) := by
  funext st
  apply reSubSt_noMatch
  intro s' hs'
  cases s' with
  | nil => rfl
  | cons c t =>
    have hc : c ∈ s := (List.IsSuffix.subset hs') (by simp)
    exact matchMathBr_ne (fun he => h (he ▸ hc))

/-- The image-inclusion command of the end-to-end property. -/
def igCmdResource : List Char := ("\\includegraphics\x7bresource.png\x7d").toList

theorem stripLit_isSome {lit cs r : List Char} (h : stripLit lit cs = some r) :
    lit.isPrefixOf cs = true := by
  unfold stripLit at h
  split at h
  · rename_i hp
    exact hp
  · exact absurd h (by simp)

theorem matchHrefAttach_starts {cs : List Char}
    {pr : List Char × List Char × List Char} {rest : List Char}
    (h : matchHrefAttach cs = some (pr, rest)) :
    hrefLit.isPrefixOf cs = true := by
  unfold matchHrefAttach at h
  cases hs : stripLit hrefLit cs with
  | none => rw [hs] at h; exact absurd h (by simp)
  | some r0 => exact stripLit_isSome hs

theorem matchProblemLink_starts {cs : List Char}
    {pr : List Char × List Char} {rest : List Char}
    (h : matchProblemLink cs = some (pr, rest)) :
    (("\\href\x7bproblem=").toList).isPrefixOf cs = true := by
  unfold matchProblemLink at h
  cases hs : stripLit (("\\href\x7bproblem=").toList) cs with
  | none => rw [hs] at h; exact absurd h (by simp)
  | some r0 => exact stripLit_isSome hs

theorem matchAboutLink_starts {cs : List Char}
    {pr : List Char × List Char} {rest : List Char}
    (h : matchAboutLink cs = some (pr, rest)) :
    (("\\href\x7babout=").toList).isPrefixOf cs = true := by
  unfold matchAboutLink at h
  cases hs : stripLit (("\\href\x7babout=").toList) cs with
  | none => rw [hs] at h; exact absurd h (by simp)
  | some r0 => exact stripLit_isSome hs

theorem matchRightClick_paren {cs : List Char} {pr : Unit} {rest : List Char}
    (h : matchRightClick cs = some (pr, rest)) : '(' ∈ cs := by
  unfold matchRightClick at h
  cases hs : stripLit (("(right").toList) (cs.dropWhile pyIsSpace) with
  | none => rw [hs] at h; exact absurd h (by simp)
  | some r1 =>
    have hp := stripLit_isSome hs
    obtain ⟨t, ht⟩ := List.isPrefixOf_iff_prefix.mp hp
    have : '(' ∈ cs.dropWhile pyIsSpace := by
      rw [← ht]
      simp
    exact (List.dropWhile_sublist pyIsSpace).subset this

theorem substituteTemplate_cons (seg : TemplateSeg) (rest : List TemplateSeg)
    (p c : List Char) :
    substituteTemplate (seg :: rest) p c
      = (match seg with
         | TemplateSeg.lit s => s
         | TemplateSeg.preambleHole => p
         | TemplateSeg.contentHole => c) ++ substituteTemplate rest p c := rfl

theorem substituteTemplate_mem (tpl : List TemplateSeg)
    (hc : TemplateSeg.contentHole ∈ tpl) (p c : List Char) :
    ∃ x y, substituteTemplate tpl p c = x ++ c ++ y := by
  induction tpl with
  | nil => simp at hc
  | cons seg rest ih =>
    rcases List.mem_cons.mp hc with rfl | hmem
    · exact ⟨[], substituteTemplate rest p c,
        by rw [substituteTemplate_cons]; simp⟩
    · obtain ⟨x, y, hxy⟩ := ih hmem
      cases seg with
      | lit s =>
        exact ⟨s ++ x, y, by rw [substituteTemplate_cons, hxy]; simp⟩
      | preambleHole =>
        exact ⟨p ++ x, y, by rw [substituteTemplate_cons, hxy]; simp⟩
      | contentHole =>
        exact ⟨c ++ x, y, by rw [substituteTemplate_cons, hxy]; simp⟩

theorem append_latex_content_resources (b : DocumentBuilder) (s : List Char) :
    (append_latex_content b s).url_paths_resources
      = dedupInto b.url_paths_resources (igPaths s) := by
  unfold append_latex_content
  simp only []
  rw [parse_latex_links_spec]

theorem append_latex_content_page_resources_mem (b : DocumentBuilder)
    (s x : List Char) (hx : x ∈ igPaths s) :
    x ∈ (append_latex_content_page b s).url_paths_resources := by
  unfold append_latex_content_page
  cases hsp : b.is_spaced with
  | true =>
    rw [if_pos rfl, append_latex_content_resources]
    exact (mem_dedupInto _ _ _).mpr (Or.inr hx)
  | false =>
    have hcf : ¬(false = true) := by simp
    rw [if_neg hcf, append_latex_content_resources]
    exact (mem_dedupInto _ _ _).mpr (Or.inr hx)

theorem append_problem_resources_mem (b : DocumentBuilder) (s x : List Char)
    (hx : x ∈ igPaths s) :
    x ∈ (append_problem_latex_content b s).url_paths_resources := by
  unfold append_problem_latex_content
  rw [append_latex_content_resources]
  exact (mem_dedupInto _ _ _).mpr
    (Or.inl (append_latex_content_page_resources_mem b s x hx))

/-- C7: appending a puzzle fragment containing `\includegraphics{resource.png}`
(with a backslash-free prefix so the command is the fragment's only command
start, an `\href`-free and parenthesis-free accumulated output so no
finalize rewrite matches, and a template containing the content placeholder)
puts `resource.png` in the resource set before finalize, and the written
document text still contains the original inclusion command unaltered. -/
theorem c7_resource_roundtrip (sp : Bool) (pre post : List Char)
    (tpl : List TemplateSeg)
    (hpre : '\\' ∉ pre)
    (hhref : containsSub (("\\href").toList)
      ((append_problem_latex_content (DocumentBuilder.init sp)
        (pre ++ igCmdResource ++ post)).output_latex_content) = false)
    (hparen : '(' ∉ ((append_problem_latex_content (DocumentBuilder.init sp)
        (pre ++ igCmdResource ++ post)).output_latex_content))
    (htpl : TemplateSeg.contentHole ∈ tpl) :
    ("resource.png".toList) ∈ (append_problem_latex_content (DocumentBuilder.init sp)
        (pre ++ igCmdResource ++ post)).url_paths_resources
    ∧ ∃ x y, (write (append_problem_latex_content (DocumentBuilder.init sp)
        (pre ++ igCmdResource ++ post)) tpl).2.1
      = x ++ igCmdResource ++ y := by
  have hcmd : igCmdResource = igReconstruct none ("resource.png".toList) := by
    decide
  constructor
  · apply append_problem_resources_mem
    unfold igPaths
    have hfrag : pre ++ igCmdResource ++ post
        = pre ++ (igReconstruct none ("resource.png".toList) ++ post) := by
      rw [hcmd, List.append_assoc]
    rw [hfrag]
    rw [reFindAll_append_left matchIncludegraphics pre _
      (fun p' hp' hne => by
        cases p' with
        | nil => exact absurd rfl hne
        | cons c t =>
          have hc : c ∈ pre := (List.IsSuffix.subset hp') (by simp)
          rw [List.cons_append]
          exact matchIncludegraphics_none_head (fun he => hpre (he ▸ hc)))]
    rw [reFindAll_step matchIncludegraphics
      (by
        intro hnil
        have := congrArg List.length hnil
        simp [igReconstruct, igLit] at this)
      (matchIncludegraphics_at_cmd (by decide) (by decide))
      (by
        have h7 : 0 < (igReconstruct none ("resource.png".toList)).length := by
          simp [igReconstruct, igLit]
        simp only [List.length_append]
        omega)]
    simp
  · generalize hB : (append_problem_latex_content (DocumentBuilder.init sp)
        (pre ++ igCmdResource ++ post)) = B at hhref hparen
    have houtB : B.output_latex_content
        = pageBreakIf sp ++ (pre ++ igCmdResource ++ post) ++ doubleNewline := by
      rw [← hB, append_problem_latex_content_output]
      rfl
    have hc1 : reSubP matchHrefAttach attachReplacement B.output_latex_content
        = B.output_latex_content := by
      apply reSubP_noMatch
      intro s' hs'
      cases hm : matchHrefAttach s' with
      | none => rfl
      | some pr =>
        exfalso
        obtain ⟨pr1, rest1⟩ := pr
        have hp := matchHrefAttach_starts hm
        have hp5 : (("\\href").toList).isPrefixOf s' = true := by
          apply List.isPrefixOf_iff_prefix.mpr
          exact List.IsPrefix.trans (by decide) (List.isPrefixOf_iff_prefix.mp hp)
        rw [containsSub_of_suffix_starts hs' hp5] at hhref
        exact absurd hhref (by simp)
    have hc2 : reSubP matchRightClick (fun _ => []) B.output_latex_content
        = B.output_latex_content := by
      apply reSubP_noMatch
      intro s' hs'
      cases hm : matchRightClick s' with
      | none => rfl
      | some pr =>
        exfalso
        obtain ⟨pr1, rest1⟩ := pr
        exact hparen ((List.IsSuffix.subset hs') (matchRightClick_paren hm))
    have hc3 : reSubP matchProblemLink problemReplacement B.output_latex_content
        = B.output_latex_content := by
      apply reSubP_noMatch
      intro s' hs'
      cases hm : matchProblemLink s' with
      | none => rfl
      | some pr =>
        exfalso
        obtain ⟨pr1, rest1⟩ := pr
        have hp := matchProblemLink_starts hm
        have hp5 : (("\\href").toList).isPrefixOf s' = true := by
          apply List.isPrefixOf_iff_prefix.mpr
          exact List.IsPrefix.trans (by decide) (List.isPrefixOf_iff_prefix.mp hp)
        rw [containsSub_of_suffix_starts hs' hp5] at hhref
        exact absurd hhref (by simp)
    have hc4 : reSubP matchAboutLink aboutReplacement B.output_latex_content
        = B.output_latex_content := by
      apply reSubP_noMatch
      intro s' hs'
      cases hm : matchAboutLink s' with
      | none => rfl
      | some pr =>
        exfalso
        obtain ⟨pr1, rest1⟩ := pr
        have hp := matchAboutLink_starts hm
        have hp5 : (("\\href").toList).isPrefixOf s' = true := by
          apply List.isPrefixOf_iff_prefix.mpr
          exact List.IsPrefix.trans (by decide) (List.isPrefixOf_iff_prefix.mp hp)
        rw [containsSub_of_suffix_starts hs' hp5] at hhref
        exact absurd hhref (by simp)
    simp only [write]
    rw [hc1, hc2, hc3, hc4]
    obtain ⟨x0, y0, hxy0⟩ := substituteTemplate_mem tpl htpl
      (buildLatexPreamble B.color_mappings) B.output_latex_content
    have hmid : ∃ u v, substituteTemplate tpl
        (buildLatexPreamble B.color_mappings) B.output_latex_content
        = u ++ igCmdResource ++ v := by
      refine ⟨x0 ++ (pageBreakIf sp ++ pre), post ++ doubleNewline ++ y0, ?_⟩
      rw [hxy0, houtB]
      simp
    obtain ⟨u, v, huv⟩ := hmid
    rw [huv]
    exact applyCharSubs_preserves_infix igCmdResource
      LATEX_CHARACTER_SUBSTITUTIONS u v (by decide)

/-- Witness for C7 at a concrete fragment and template. -/
theorem c7_resource_roundtrip_witness :
    ("resource.png".toList) ∈ (append_problem_latex_content (DocumentBuilder.init false)
        (("See ".toList) ++ igCmdResource ++ (" here.".toList))).url_paths_resources
    ∧ ∃ x y, (write (append_problem_latex_content (DocumentBuilder.init false)
        (("See ".toList) ++ igCmdResource ++ (" here.".toList)))
        [TemplateSeg.lit ("HEAD ".toList), TemplateSeg.preambleHole,
         TemplateSeg.lit (" MID ".toList), TemplateSeg.contentHole,
         TemplateSeg.lit (" TAIL".toList)]).2.1
      = x ++ igCmdResource ++ y :=
  c7_resource_roundtrip false ("See ".toList) (" here.".toList)
    [TemplateSeg.lit ("HEAD ".toList), TemplateSeg.preambleHole,
     TemplateSeg.lit (" MID ".toList), TemplateSeg.contentHole,
     TemplateSeg.lit (" TAIL".toList)]
    (by decide) (by decide) (by decide) (by decide)

theorem containsSub_cons (pat : List Char) (c : Char) (cs : List Char) :
    containsSub pat (c :: cs) = (pat.isPrefixOf (c :: cs) || containsSub pat cs) := rfl

theorem isPrefixOf_cons_of_ne {c0 c : Char} (pt X : List Char) (h : c ≠ c0) :
    (c0 :: pt).isPrefixOf (c :: X) = false := by
  simp [List.isPrefixOf_cons₂, Ne.symm h]

theorem not_isPrefixOf_append_of_ne {p q : List Char} (X : List Char)
    (hlen : p.length = q.length) (hne : p ≠ q) :
    p.isPrefixOf (q ++ X) = false := by
  cases hpb : p.isPrefixOf (q ++ X) with
  | false => rfl
  | true =>
    exfalso
    obtain ⟨t, ht⟩ := List.isPrefixOf_iff_prefix.mp hpb
    have h1 : (p ++ t).take p.length = p := List.take_left p t
    rw [ht, hlen, List.take_left] at h1
    exact hne h1.symm

theorem containsSub_false_of_head_not_mem {c0 : Char} (pt : List Char) :
    ∀ {s : List Char}, c0 ∉ s → containsSub (c0 :: pt) s = false := by
  intro s
  induction s with
  | nil => intro _; rfl
  | cons c cs ih =>
    intro h
    rw [containsSub_cons]
    rw [isPrefixOf_cons_of_ne pt cs
      (fun he => h (by rw [← he]; exact List.mem_cons_self c cs))]
    rw [ih (fun hm => h (List.mem_cons_of_mem c hm))]
    rfl

theorem suffix_append_cases {α : Type} {s' : List α} :
    ∀ (a b : List α), s' <:+ a ++ b →
      s' <:+ b ∨ ∃ a₂, a₂ <:+ a ∧ a₂ ≠ [] ∧ s' = a₂ ++ b := by
  intro a
  induction a with
  | nil => intro b h; exact Or.inl (by simpa using h)
  | cons c a' ih =>
    intro b h
    rw [List.cons_append] at h
    rcases List.suffix_cons_iff.mp h with heq | h2
    · exact Or.inr ⟨c :: a', List.suffix_refl _, by simp, by simpa using heq⟩
    · rcases ih b h2 with hb | ⟨a₂, ha₂, hne, heq⟩
      · exact Or.inl hb
      · exact Or.inr ⟨a₂, List.suffix_cons_iff.mpr (Or.inr ha₂), hne, heq⟩

theorem matchMathDD_snd_ne {c : Char} {t : List Char} (h : c ≠ '$') :
    matchMathDD ('$' :: c :: t) = none := by
  unfold matchMathDD
  split
  · rename_i rest heq
    injection heq with _ h2
    injection h2 with h2a _
    exact absurd h2a h
  · rfl

theorem scanDollarFree {R : List Char} :
    ∀ {d : List Char}, '$' ∉ d →
      (d ++ '$' :: R).takeWhile (fun c => c != '$') = d ∧
      (d ++ '$' :: R).dropWhile (fun c => c != '$') = '$' :: R := by
  intro d
  induction d with
  | nil =>
    intro _
    constructor <;> simp [List.takeWhile_cons, List.dropWhile_cons]
  | cons c d' ih =>
    intro h
    have hc : c ≠ '$' := fun he => h (he ▸ List.mem_cons_self c d')
    have ih' := ih (fun hm => h (List.mem_cons_of_mem c hm))
    constructor
    · rw [List.cons_append, List.takeWhile_cons]
      simp only [hc, bne_iff_ne, ne_eq, not_false_eq_true, if_true, ite_true]
      rw [ih'.1]
    · rw [List.cons_append, List.dropWhile_cons]
      simp only [hc, bne_iff_ne, ne_eq, not_false_eq_true, if_true, ite_true]
      rw [ih'.2]

theorem matchMathDD_span {d : List Char} (hd : d ≠ []) (h : '$' ∉ d) (R : List Char) :
    matchMathDD (('$' :: '$' :: (d ++ ['$', '$'])) ++ R)
      = some ('$' :: '$' :: (d ++ ['$', '$']), R) := by
  have hshape : ('$' :: '$' :: (d ++ ['$', '$'])) ++ R
      = '$' :: '$' :: (d ++ '$' :: '$' :: R) := by simp
  rw [hshape]
  simp only [matchMathDD]
  obtain ⟨htk, hdr⟩ := @scanDollarFree ('$' :: R) d h
  rw [show d ++ '$' :: '$' :: R = d ++ '$' :: ('$' :: R) from rfl, hdr, htk]
  simp [hd]

theorem matchMathS_span {e : List Char} (he : e ≠ []) (h : '$' ∉ e) (R : List Char) :
    matchMathS (('$' :: (e ++ ['$'])) ++ R)
      = some ('$' :: (e ++ ['$']), R) := by
  have hshape : ('$' :: (e ++ ['$'])) ++ R = '$' :: (e ++ '$' :: R) := by simp
  rw [hshape]
  simp only [matchMathS]
  obtain ⟨htk, hdr⟩ := @scanDollarFree R e h
  rw [hdr, htk]
  simp [he]

theorem findCloseBr_append {R : List Char} :
    ∀ {f : List Char}, containsSub ('\\' :: ']' :: []) f = false →
      findCloseBr (f ++ '\\' :: ']' :: R) = some (f, R) := by
  intro f
  induction f with
  | nil => intro _; rfl
  | cons c f' ih =>
    intro h
    rw [containsSub_cons] at h
    simp only [Bool.or_eq_false_iff] at h
    obtain ⟨hnp, hrec⟩ := h
    have ih' := ih hrec
    rw [List.cons_append]
    by_cases hc : c = '\\'
    · subst hc
      cases f' with
      | nil =>
        simp only [List.nil_append]
        rw [show findCloseBr ('\\' :: '\\' :: ']' :: R)
            = some (['\\'], R) from by simp [findCloseBr]]
      | cons c2 f'' =>
        have hc2 : c2 ≠ ']' := by
          intro he
          subst he
          simp [List.isPrefixOf] at hnp
        rw [List.cons_append] at ih' ⊢
        unfold findCloseBr
        split
        · rename_i rest heq
          injection heq with _ h2
          injection h2 with h2a _
          exact absurd h2a hc2
        · rename_i c' rest heq
          injection heq with h1 h2
          subst h1
          subst h2
          rw [ih']
        · rename_i heq
          exact absurd heq (by simp)
    · unfold findCloseBr
      split
      · rename_i rest heq
        injection heq with h1 _
        exact absurd h1 hc
      · rename_i c' rest heq
        injection heq with h1 h2
        subst h1
        subst h2
        rw [ih']
      · rename_i heq
        exact absurd heq (by simp)

theorem matchMathBr_span {f : List Char}
    (h : containsSub ('\\' :: ']' :: []) f = false) (R : List Char) :
    matchMathBr (('\\' :: '[' :: (f ++ ['\\', ']'])) ++ R)
      = some ('\\' :: '[' :: (f ++ ['\\', ']']), R) := by
  have hshape : ('\\' :: '[' :: (f ++ ['\\', ']'])) ++ R
      = '\\' :: '[' :: (f ++ '\\' :: ']' :: R) := by simp
  rw [hshape]
  simp only [matchMathBr]
  rw [findCloseBr_append h]

theorem matchMathDD_none_pre {pre : List Char} (h : '$' ∉ pre) :
    ∀ p' tail, p' <:+ pre → p' ≠ [] → matchMathDD (p' ++ tail) = none := by
  intro p' tail hp' hne
  cases p' with
  | nil => exact absurd rfl hne
  | cons c t =>
    have hc : c ∈ pre := (List.IsSuffix.subset hp') (by simp)
    rw [List.cons_append]
    exact matchMathDD_ne (fun he => h (he ▸ hc))

theorem matchMathS_none_pre {pre : List Char} (h : '$' ∉ pre) :
    ∀ p' tail, p' <:+ pre → p' ≠ [] → matchMathS (p' ++ tail) = none := by
  intro p' tail hp' hne
  cases p' with
  | nil => exact absurd rfl hne
  | cons c t =>
    have hc : c ∈ pre := (List.IsSuffix.subset hp') (by simp)
    rw [List.cons_append]
    exact matchMathS_ne (fun he => h (he ▸ hc))

theorem matchMathBr_none_pre {pre : List Char} (h : '\\' ∉ pre) :
    ∀ p' tail, p' <:+ pre → p' ≠ [] → matchMathBr (p' ++ tail) = none := by
  intro p' tail hp' hne
  cases p' with
  | nil => exact absurd rfl hne
  | cons c t =>
    have hc : c ∈ pre := (List.IsSuffix.subset hp') (by simp)
    rw [List.cons_append]
    exact matchMathBr_ne (fun he => h (he ▸ hc))

theorem matchMathDD_suffix_none {S : List Char} (h : '$' ∉ S) :
    ∀ s', s' <:+ S → matchMathDD s' = none := by
  intro s' hs'
  cases s' with
  | nil => rfl
  | cons c t =>
    have hc : c ∈ S := (List.IsSuffix.subset hs') (by simp)
    exact matchMathDD_ne (fun he => h (he ▸ hc))

theorem matchMathDD_none_mid {t1 e S2 : List Char} (he : e ≠ [])
    (h1 : '$' ∉ t1) (h2 : '$' ∉ e) (h3 : '$' ∉ S2) (hS : S2 ≠ []) :
    ∀ s', s' <:+ (t1 ++ (('$' :: (e ++ ['$'])) ++ S2)) → matchMathDD s' = none := by
  intro s' hs'
  rcases suffix_append_cases t1 (('$' :: (e ++ ['$'])) ++ S2) hs' with
    hcase | ⟨a₂, ha₂, hane, rfl⟩
  · rcases suffix_append_cases ('$' :: (e ++ ['$'])) S2 hcase with
      hS2 | ⟨b₂, hb₂, hbne, rfl⟩
    · exact matchMathDD_suffix_none h3 s' hS2
    · rcases List.suffix_cons_iff.mp hb₂ with rfl | hb₂'
      · cases e with
        | nil => exact absurd rfl he
        | cons e0 e' =>
          have he0 : e0 ≠ '$' := fun hh => h2 (hh ▸ List.mem_cons_self e0 e')
          rw [show ('$' :: ((e0 :: e') ++ ['$'])) ++ S2
              = '$' :: e0 :: ((e' ++ ['$']) ++ S2) by simp]
          exact matchMathDD_snd_ne he0
      · rcases suffix_append_cases e ['$'] hb₂' with hdol | ⟨e₂, he₂, hene, rfl⟩
        · rcases List.suffix_cons_iff.mp hdol with rfl | hnil
          · cases S2 with
            | nil => exact absurd rfl hS
            | cons s0 S2' =>
              have hs0 : s0 ≠ '$' := fun hh => h3 (hh ▸ List.mem_cons_self s0 S2')
              rw [show (['$'] : List Char) ++ s0 :: S2' = '$' :: s0 :: S2' by simp]
              exact matchMathDD_snd_ne hs0
          · exact absurd (List.suffix_nil.mp hnil) hbne
        · cases e₂ with
          | nil => exact absurd rfl hene
          | cons c t =>
            have hc : c ∈ e := (List.IsSuffix.subset he₂) (by simp)
            rw [show ((c :: t) ++ ['$']) ++ S2 = c :: ((t ++ ['$']) ++ S2) by simp]
            exact matchMathDD_ne (fun hh => h2 (hh ▸ hc))
  · cases a₂ with
    | nil => exact absurd rfl hane
    | cons c t =>
      have hc : c ∈ t1 := (List.IsSuffix.subset ha₂) (by simp)
      rw [List.cons_append]
      exact matchMathDD_ne (fun hh => h1 (hh ▸ hc))

theorem replaceAll_pass_head {pat : List Char} {c0 : Char} {pt : List Char}
    (hpat : pat = c0 :: pt) (r : List Char) :
    ∀ (a b : List Char), c0 ∉ a →
      replaceAll pat r (a ++ b) = a ++ replaceAll pat r b := by
  intro a
  induction a with
  | nil => intro b _; simp
  | cons c a' ih =>
    intro b h
    have hc : c ≠ c0 := fun he => h (he ▸ List.mem_cons_self c a')
    rw [List.cons_append, replaceAll_cons]
    rw [if_neg (fun hcnd => by
      have hp2 := hcnd.2
      rw [hpat, isPrefixOf_cons_of_ne pt (a' ++ b) hc] at hp2
      exact absurd hp2 (by simp))]
    rw [ih b (fun hm => h (List.mem_cons_of_mem c hm))]
    rfl

theorem replaceAll_at_pat_head {pat : List Char} (hp : pat ≠ []) (r b : List Char) :
    replaceAll pat r (pat ++ b) = r ++ replaceAll pat r b := by
  obtain ⟨c0, pt, rfl⟩ : ∃ c0 pt, pat = c0 :: pt := by
    cases pat with
    | nil => exact absurd rfl hp
    | cons a t => exact ⟨a, t, rfl⟩
  rw [List.cons_append, replaceAll_cons]
  have hpre : (c0 :: pt).isPrefixOf (c0 :: (pt ++ b)) = true := by
    rw [show c0 :: (pt ++ b) = (c0 :: pt) ++ b by simp]
    exact List.isPrefixOf_iff_prefix.mpr (List.prefix_append _ _)
  rw [if_pos ⟨by simp, hpre⟩]
  simp only [List.length_cons, Nat.add_sub_cancel]
  rw [List.drop_left]

theorem replaceAll_skip_block {pat : List Char} {cp : Char} {ptl : List Char}
    (hpat : pat = cp :: ptl) {blk : List Char} {b0 : Char} {bt : List Char}
    (hblk : blk = b0 :: bt) (hcp : cp ∉ bt) (r b : List Char)
    (hnp : pat.isPrefixOf (blk ++ b) = false) :
    replaceAll pat r (blk ++ b) = blk ++ replaceAll pat r b := by
  subst hblk
  rw [List.cons_append] at hnp ⊢
  rw [replaceAll_cons]
  rw [if_neg (fun hcnd => by
    have hp2 := hcnd.2
    rw [hnp] at hp2
    exact absurd hp2 (by simp))]
  rw [replaceAll_pass_head hpat r bt b hcp]
  rfl

theorem not_mem_replaceAllAux {c : Char} (pat r : List Char) (hr : c ∉ r) :
    ∀ n (s : List Char), s.length ≤ n → c ∉ s → c ∉ replaceAll pat r s := by
  intro n
  induction n with
  | zero =>
    intro s hlen hs
    have hnil : s = [] := List.eq_nil_of_length_eq_zero (Nat.le_zero.mp hlen)
    subst hnil
    rw [replaceAll_nil]
    exact hs
  | succ n ih =>
    intro s hlen hs
    cases s with
    | nil =>
      rw [replaceAll_nil]
      exact hs
    | cons d cs =>
      rw [replaceAll_cons]
      have hcs : c ∉ cs := fun hx => hs (List.mem_cons_of_mem d hx)
      by_cases hcond : pat ≠ [] ∧ pat.isPrefixOf (d :: cs)
      · rw [if_pos hcond]
        intro hmem
        rcases List.mem_append.mp hmem with hm | hm
        · exact hr hm
        · have hsub : c ∉ cs.drop (pat.length - 1) :=
            fun hmm => hcs (List.drop_subset _ cs hmm)
          have hdlen : (cs.drop (pat.length - 1)).length ≤ n := by
            have : cs.length ≤ n := by
              have := hlen
              simp only [List.length_cons] at this
              omega
            simp only [List.length_drop]
            omega
          exact (ih (cs.drop (pat.length - 1)) hdlen hsub) hm
      · rw [if_neg hcond]
        intro hmem
        rcases List.mem_cons.mp hmem with hm | hm
        · exact hs (hm ▸ List.mem_cons_self d cs)
        · have hclen : cs.length ≤ n := by
            have := hlen
            simp only [List.length_cons] at this
            omega
          exact (ih cs hclen hcs) hm

theorem not_mem_replaceAll {c : Char} {pat r s : List Char}
    (hr : c ∉ r) (hs : c ∉ s) : c ∉ replaceAll pat r s :=
  not_mem_replaceAllAux pat r hr s.length s le_rfl hs

theorem not_mem_unescapeEntities {s : List Char} (hs : 'L' ∉ s) :
    'L' ∉ unescapeEntities s := by
  unfold unescapeEntities
  exact not_mem_replaceAll (by decide)
    (not_mem_replaceAll (by decide) (not_mem_replaceAll (by decide) hs))

theorem protect_three {t0 t1 t2 t3 d e f : List Char}
    (hd : d ≠ []) (he : e ≠ [])
    (hdS : '$' ∉ d) (heS : '$' ∉ e) (hfS : '$' ∉ f)
    (hfBr : containsSub ('\\' :: ']' :: []) f = false)
    (h0S : '$' ∉ t0) (h1S : '$' ∉ t1) (h2S : '$' ∉ t2) (h3S : '$' ∉ t3)
    (h0B : '\\' ∉ t0) (h1B : '\\' ∉ t1) (h2B : '\\' ∉ t2) (h3B : '\\' ∉ t3) :
    protectFormulas (t0 ++ ('$' :: '$' :: (d ++ ['$', '$'])) ++ t1
        ++ ('$' :: (e ++ ['$'])) ++ t2
        ++ ('\\' :: '[' :: (f ++ ['\\', ']'])) ++ t3)
      = (t0 ++ formulaMarker 0 ++ t1 ++ formulaMarker 1 ++ t2
          ++ formulaMarker 2 ++ t3,
         [(formulaMarker 0, '$' :: '$' :: (d ++ ['$', '$'])),
          (formulaMarker 1, '$' :: (e ++ ['$'])),
          (formulaMarker 2, '\\' :: '[' :: (f ++ ['\\', ']']))]) := by
  have hS2ne : t2 ++ (('\\' :: '[' :: (f ++ ['\\', ']'])) ++ t3) ≠ [] := by simp
  have hS2S : '$' ∉ t2 ++ (('\\' :: '[' :: (f ++ ['\\', ']'])) ++ t3) := by
    intro hm
    rcases List.mem_append.mp hm with hm | hm
    · exact h2S hm
    rcases List.mem_append.mp hm with hm | hm
    · rcases List.mem_cons.mp hm with hh | hm2
      · exact absurd hh (by decide)
      rcases List.mem_cons.mp hm2 with hh | hm3
      · exact absurd hh (by decide)
      rcases List.mem_append.mp hm3 with hm4 | hm4
      · exact hfS hm4
      · rcases List.mem_cons.mp hm4 with hh | hm5
        · exact absurd hh (by decide)
        rcases List.mem_cons.mp hm5 with hh | hm6
        · exact absurd hh (by decide)
        · exact absurd hm6 (by simp)
    · exact h3S hm
  have hp1 : reSubSt matchMathDD markerAct
      (t0 ++ (('$' :: '$' :: (d ++ ['$', '$']))
        ++ (t1 ++ (('$' :: (e ++ ['$']))
          ++ (t2 ++ (('\\' :: '[' :: (f ++ ['\\', ']'])) ++ t3)))))) []
      = (t0 ++ (formulaMarker 0
          ++ (t1 ++ (('$' :: (e ++ ['$']))
            ++ (t2 ++ (('\\' :: '[' :: (f ++ ['\\', ']'])) ++ t3))))),
         [(formulaMarker 0, '$' :: '$' :: (d ++ ['$', '$']))]) := by
    rw [reSubSt_append_left matchMathDD markerAct t0
      (('$' :: '$' :: (d ++ ['$', '$']))
        ++ (t1 ++ (('$' :: (e ++ ['$']))
          ++ (t2 ++ (('\\' :: '[' :: (f ++ ['\\', ']'])) ++ t3))))) []
      (fun p' hp' hne => matchMathDD_none_pre h0S p' _ hp' hne)]
    rw [reSubSt_step matchMathDD markerAct [] (by simp)
      (matchMathDD_span hd hdS
        (t1 ++ (('$' :: (e ++ ['$']))
          ++ (t2 ++ (('\\' :: '[' :: (f ++ ['\\', ']'])) ++ t3)))))
      (by simp only [List.length_append, List.length_cons]; omega)]
    rw [reSubSt_noMatch matchMathDD markerAct
      (t1 ++ (('$' :: (e ++ ['$']))
        ++ (t2 ++ (('\\' :: '[' :: (f ++ ['\\', ']'])) ++ t3))))
      (markerAct ('$' :: '$' :: (d ++ ['$', '$'])) []).2
      (matchMathDD_none_mid he h1S heS hS2S hS2ne)]
    simp [markerAct]
  have hp2 : reSubSt matchMathS markerAct
      (t0 ++ (formulaMarker 0
        ++ (t1 ++ (('$' :: (e ++ ['$']))
          ++ (t2 ++ (('\\' :: '[' :: (f ++ ['\\', ']'])) ++ t3))))))
      [(formulaMarker 0, '$' :: '$' :: (d ++ ['$', '$']))]
      = ((t0 ++ (formulaMarker 0 ++ t1))
          ++ (formulaMarker 1 ++ (t2 ++ (('\\' :: '[' :: (f ++ ['\\', ']'])) ++ t3))),
         [(formulaMarker 0, '$' :: '$' :: (d ++ ['$', '$'])),
          (formulaMarker 1, '$' :: (e ++ ['$']))]) := by
    have hpre2 : '$' ∉ t0 ++ (formulaMarker 0 ++ t1) := by
      intro hm
      rcases List.mem_append.mp hm with hm | hm
      · exact h0S hm
      rcases List.mem_append.mp hm with hm | hm
      · exact absurd hm (by decide)
      · exact h1S hm
    rw [show t0 ++ (formulaMarker 0
        ++ (t1 ++ (('$' :: (e ++ ['$']))
          ++ (t2 ++ (('\\' :: '[' :: (f ++ ['\\', ']'])) ++ t3)))))
      = (t0 ++ (formulaMarker 0 ++ t1))
          ++ (('$' :: (e ++ ['$']))
            ++ (t2 ++ (('\\' :: '[' :: (f ++ ['\\', ']'])) ++ t3))) by simp]
    rw [reSubSt_append_left matchMathS markerAct (t0 ++ (formulaMarker 0 ++ t1))
      (('$' :: (e ++ ['$']))
        ++ (t2 ++ (('\\' :: '[' :: (f ++ ['\\', ']'])) ++ t3)))
      [(formulaMarker 0, '$' :: '$' :: (d ++ ['$', '$']))]
      (fun p' hp' hne => matchMathS_none_pre hpre2 p' _ hp' hne)]
    rw [reSubSt_step matchMathS markerAct
      [(formulaMarker 0, '$' :: '$' :: (d ++ ['$', '$']))] (by simp)
      (matchMathS_span he heS (t2 ++ (('\\' :: '[' :: (f ++ ['\\', ']'])) ++ t3)))
      (by simp only [List.length_append, List.length_cons]; omega)]
    rw [show reSubSt matchMathS markerAct
        (t2 ++ (('\\' :: '[' :: (f ++ ['\\', ']'])) ++ t3))
        (markerAct ('$' :: (e ++ ['$']))
          [(formulaMarker 0, '$' :: '$' :: (d ++ ['$', '$']))]).2
      = (t2 ++ (('\\' :: '[' :: (f ++ ['\\', ']'])) ++ t3),
         (markerAct ('$' :: (e ++ ['$']))
           [(formulaMarker 0, '$' :: '$' :: (d ++ ['$', '$']))]).2) from
      congrFun (protect_noMathS hS2S) _]
    simp [markerAct]
  have hp3 : reSubSt matchMathBr markerAct
      ((t0 ++ (formulaMarker 0 ++ t1))
        ++ (formulaMarker 1 ++ (t2 ++ (('\\' :: '[' :: (f ++ ['\\', ']'])) ++ t3))))
      [(formulaMarker 0, '$' :: '$' :: (d ++ ['$', '$'])),
       (formulaMarker 1, '$' :: (e ++ ['$']))]
      = ((t0 ++ (formulaMarker 0 ++ (t1 ++ (formulaMarker 1 ++ t2))))
          ++ (formulaMarker 2 ++ t3),
         [(formulaMarker 0, '$' :: '$' :: (d ++ ['$', '$'])),
          (formulaMarker 1, '$' :: (e ++ ['$'])),
          (formulaMarker 2, '\\' :: '[' :: (f ++ ['\\', ']']))]) := by
    have hpre3 : '\\' ∉ t0 ++ (formulaMarker 0 ++ (t1 ++ (formulaMarker 1 ++ t2))) := by
      intro hm
      rcases List.mem_append.mp hm with hm | hm
      · exact h0B hm
      rcases List.mem_append.mp hm with hm | hm
      · exact absurd hm (by decide)
      rcases List.mem_append.mp hm with hm | hm
      · exact h1B hm
      rcases List.mem_append.mp hm with hm | hm
      · exact absurd hm (by decide)
      · exact h2B hm
    rw [show (t0 ++ (formulaMarker 0 ++ t1))
        ++ (formulaMarker 1 ++ (t2 ++ (('\\' :: '[' :: (f ++ ['\\', ']'])) ++ t3)))
      = (t0 ++ (formulaMarker 0 ++ (t1 ++ (formulaMarker 1 ++ t2))))
          ++ (('\\' :: '[' :: (f ++ ['\\', ']'])) ++ t3) by simp]
    rw [reSubSt_append_left matchMathBr markerAct
      (t0 ++ (formulaMarker 0 ++ (t1 ++ (formulaMarker 1 ++ t2))))
      (('\\' :: '[' :: (f ++ ['\\', ']'])) ++ t3)
      [(formulaMarker 0, '$' :: '$' :: (d ++ ['$', '$'])),
       (formulaMarker 1, '$' :: (e ++ ['$']))]
      (fun p' hp' hne => matchMathBr_none_pre hpre3 p' _ hp' hne)]
    rw [reSubSt_step matchMathBr markerAct
      [(formulaMarker 0, '$' :: '$' :: (d ++ ['$', '$'])),
       (formulaMarker 1, '$' :: (e ++ ['$']))] (by simp)
      (matchMathBr_span hfBr t3)
      (by simp only [List.length_append, List.length_cons]; omega)]
    rw [show reSubSt matchMathBr markerAct t3
        (markerAct ('\\' :: '[' :: (f ++ ['\\', ']']))
          [(formulaMarker 0, '$' :: '$' :: (d ++ ['$', '$'])),
           (formulaMarker 1, '$' :: (e ++ ['$']))]).2
      = (t3, (markerAct ('\\' :: '[' :: (f ++ ['\\', ']']))
          [(formulaMarker 0, '$' :: '$' :: (d ++ ['$', '$'])),
           (formulaMarker 1, '$' :: (e ++ ['$']))]).2) from
      congrFun (protect_noMathBr h3B) _]
    simp [markerAct]
  unfold protectFormulas
  rw [show t0 ++ ('$' :: '$' :: (d ++ ['$', '$'])) ++ t1
      ++ ('$' :: (e ++ ['$'])) ++ t2
      ++ ('\\' :: '[' :: (f ++ ['\\', ']'])) ++ t3
    = t0 ++ (('$' :: '$' :: (d ++ ['$', '$']))
        ++ (t1 ++ (('$' :: (e ++ ['$']))
          ++ (t2 ++ (('\\' :: '[' :: (f ++ ['\\', ']'])) ++ t3))))) by simp]
  simp only []
  rw [hp1, hp2, hp3]
  simp

theorem restore_three {t0 t1 t2 t3 X0 X1 X2 : List Char}
    (h0L : 'L' ∉ t0) (h1L : 'L' ∉ t1) (h2L : 'L' ∉ t2) (h3L : 'L' ∉ t3)
    (hX0 : 'L' ∉ X0) (hX1 : 'L' ∉ X1) :
    restoreFormulas
      (t0 ++ formulaMarker 0 ++ t1 ++ formulaMarker 1 ++ t2
        ++ formulaMarker 2 ++ t3)
      [(formulaMarker 0, X0), (formulaMarker 1, X1), (formulaMarker 2, X2)]
      = t0 ++ unescapeEntities X0 ++ t1 ++ unescapeEntities X1 ++ t2
          ++ unescapeEntities X2 ++ t3 := by
  have hM0 : formulaMarker 0 = 'L' :: ("ATEX-0-SUBSTITUTION".toList) := by decide
  have hM1 : formulaMarker 1 = 'L' :: ("ATEX-1-SUBSTITUTION".toList) := by decide
  have hM2 : formulaMarker 2 = 'L' :: ("ATEX-2-SUBSTITUTION".toList) := by decide
  have hu0 : 'L' ∉ unescapeEntities X0 := not_mem_unescapeEntities hX0
  have hu1 : 'L' ∉ unescapeEntities X1 := not_mem_unescapeEntities hX1
  have hr0 : replaceAll (formulaMarker 0) (unescapeEntities X0)
      (t0 ++ formulaMarker 0 ++ t1 ++ formulaMarker 1 ++ t2
        ++ formulaMarker 2 ++ t3)
      = t0 ++ unescapeEntities X0 ++ t1 ++ formulaMarker 1 ++ t2
          ++ formulaMarker 2 ++ t3 := by
    rw [show t0 ++ formulaMarker 0 ++ t1 ++ formulaMarker 1 ++ t2
        ++ formulaMarker 2 ++ t3
      = t0 ++ (formulaMarker 0 ++ (t1 ++ (formulaMarker 1
          ++ (t2 ++ (formulaMarker 2 ++ t3))))) by simp]
    rw [replaceAll_pass_head hM0 (unescapeEntities X0) t0
      (formulaMarker 0 ++ (t1 ++ (formulaMarker 1
        ++ (t2 ++ (formulaMarker 2 ++ t3))))) h0L]
    rw [replaceAll_at_pat_head (show formulaMarker 0 ≠ [] by decide)
      (unescapeEntities X0)
      (t1 ++ (formulaMarker 1 ++ (t2 ++ (formulaMarker 2 ++ t3))))]
    rw [replaceAll_pass_head hM0 (unescapeEntities X0) t1
      (formulaMarker 1 ++ (t2 ++ (formulaMarker 2 ++ t3))) h1L]
    rw [replaceAll_skip_block hM0 hM1 (by decide) (unescapeEntities X0)
      (t2 ++ (formulaMarker 2 ++ t3))
      (not_isPrefixOf_append_of_ne (t2 ++ (formulaMarker 2 ++ t3))
        (by decide) (by decide))]
    rw [replaceAll_pass_head hM0 (unescapeEntities X0) t2
      (formulaMarker 2 ++ t3) h2L]
    rw [replaceAll_skip_block hM0 hM2 (by decide) (unescapeEntities X0) t3
      (not_isPrefixOf_append_of_ne t3 (by decide) (by decide))]
    rw [replaceAll_of_not_contains (formulaMarker 0) (unescapeEntities X0) t3
      (by rw [hM0]
          exact containsSub_false_of_head_not_mem ("ATEX-0-SUBSTITUTION".toList) h3L)]
    simp
  have hr1 : replaceAll (formulaMarker 1) (unescapeEntities X1)
      (t0 ++ unescapeEntities X0 ++ t1 ++ formulaMarker 1 ++ t2
        ++ formulaMarker 2 ++ t3)
      = t0 ++ unescapeEntities X0 ++ t1 ++ unescapeEntities X1 ++ t2
          ++ formulaMarker 2 ++ t3 := by
    rw [show t0 ++ unescapeEntities X0 ++ t1 ++ formulaMarker 1 ++ t2
        ++ formulaMarker 2 ++ t3
      = t0 ++ (unescapeEntities X0 ++ (t1 ++ (formulaMarker 1
          ++ (t2 ++ (formulaMarker 2 ++ t3))))) by simp]
    rw [replaceAll_pass_head hM1 (unescapeEntities X1) t0
      (unescapeEntities X0 ++ (t1 ++ (formulaMarker 1
        ++ (t2 ++ (formulaMarker 2 ++ t3))))) h0L]
    rw [replaceAll_pass_head hM1 (unescapeEntities X1) (unescapeEntities X0)
      (t1 ++ (formulaMarker 1 ++ (t2 ++ (formulaMarker 2 ++ t3)))) hu0]
    rw [replaceAll_pass_head hM1 (unescapeEntities X1) t1
      (formulaMarker 1 ++ (t2 ++ (formulaMarker 2 ++ t3))) h1L]
    rw [replaceAll_at_pat_head (show formulaMarker 1 ≠ [] by decide)
      (unescapeEntities X1) (t2 ++ (formulaMarker 2 ++ t3))]
    rw [replaceAll_pass_head hM1 (unescapeEntities X1) t2
      (formulaMarker 2 ++ t3) h2L]
    rw [replaceAll_skip_block hM1 hM2 (by decide) (unescapeEntities X1) t3
      (not_isPrefixOf_append_of_ne t3 (by decide) (by decide))]
    rw [replaceAll_of_not_contains (formulaMarker 1) (unescapeEntities X1) t3
      (by rw [hM1]
          exact containsSub_false_of_head_not_mem ("ATEX-1-SUBSTITUTION".toList) h3L)]
    simp
  have hr2 : replaceAll (formulaMarker 2) (unescapeEntities X2)
      (t0 ++ unescapeEntities X0 ++ t1 ++ unescapeEntities X1 ++ t2
        ++ formulaMarker 2 ++ t3)
      = t0 ++ unescapeEntities X0 ++ t1 ++ unescapeEntities X1 ++ t2
          ++ unescapeEntities X2 ++ t3 := by
    rw [show t0 ++ unescapeEntities X0 ++ t1 ++ unescapeEntities X1 ++ t2
        ++ formulaMarker 2 ++ t3
      = t0 ++ (unescapeEntities X0 ++ (t1 ++ (unescapeEntities X1
          ++ (t2 ++ (formulaMarker 2 ++ t3))))) by simp]
    rw [replaceAll_pass_head hM2 (unescapeEntities X2) t0
      (unescapeEntities X0 ++ (t1 ++ (unescapeEntities X1
        ++ (t2 ++ (formulaMarker 2 ++ t3))))) h0L]
    rw [replaceAll_pass_head hM2 (unescapeEntities X2) (unescapeEntities X0)
      (t1 ++ (unescapeEntities X1 ++ (t2 ++ (formulaMarker 2 ++ t3)))) hu0]
    rw [replaceAll_pass_head hM2 (unescapeEntities X2) t1
      (unescapeEntities X1 ++ (t2 ++ (formulaMarker 2 ++ t3))) h1L]
    rw [replaceAll_pass_head hM2 (unescapeEntities X2) (unescapeEntities X1)
      (t2 ++ (formulaMarker 2 ++ t3)) hu1]
    rw [replaceAll_pass_head hM2 (unescapeEntities X2) t2
      (formulaMarker 2 ++ t3) h2L]
    rw [replaceAll_at_pat_head (show formulaMarker 2 ≠ [] by decide)
      (unescapeEntities X2) t3]
    rw [replaceAll_of_not_contains (formulaMarker 2) (unescapeEntities X2) t3
      (by rw [hM2]
          exact containsSub_false_of_head_not_mem ("ATEX-2-SUBSTITUTION".toList) h3L)]
    simp
  simp only [restoreFormulas, List.foldl_cons, List.foldl_nil]
  rw [hr0, hr1, hr2]

/-- C4: for any input fragment built from four surrounding texts and three
formula spans — a double-dollar span, then a single-dollar span, then a
bracket-delimited span (the surroundings free of the span delimiters and of
the marker head character, the span bodies matchable by the non-greedy
patterns) — the protection passes replace exactly the three spans by the
unique markers `LATEX-0-SUBSTITUTION`, `LATEX-1-SUBSTITUTION` and
`LATEX-2-SUBSTITUTION` (numbered in pass order: double-dollar, single-dollar,
bracket), each recording the exact original span text; restoring the
protected document puts back, in place of each marker, the original span
text with `&amp;`/`&lt;`/`&gt;` unescaped, while the surrounding texts pass
through untouched (entities outside the formula regions stay escaped); the
three markers are pairwise distinct; a document containing no marker is left
unchanged by restoration; the unescaping rewrites `&amp;`, `&lt;`, `&gt;` to
`&`, `<`, `>`; and in particular an input containing `$$x^2$$` between
dollar-free, backslash-free surroundings is protected to a single marker
recording `$$x^2$$` whose restoration reproduces the literal text `$$x^2$$`,
math delimiters included. -/
theorem c4_formula_protection
    (t0 t1 t2 t3 d e f : List Char)
    (hd : d ≠ []) (he : e ≠ [])
    (hdS : '$' ∉ d) (heS : '$' ∉ e) (hfS : '$' ∉ f)
    (hfBr : containsSub ('\\' :: ']' :: []) f = false)
    (h0S : '$' ∉ t0) (h1S : '$' ∉ t1) (h2S : '$' ∉ t2) (h3S : '$' ∉ t3)
    (h0B : '\\' ∉ t0) (h1B : '\\' ∉ t1) (h2B : '\\' ∉ t2) (h3B : '\\' ∉ t3)
    (h0L : 'L' ∉ t0) (h1L : 'L' ∉ t1) (h2L : 'L' ∉ t2) (h3L : 'L' ∉ t3)
    (hdL : 'L' ∉ d) (heL : 'L' ∉ e) :
    protectFormulas (t0 ++ ('$' :: '$' :: (d ++ ['$', '$'])) ++ t1
        ++ ('$' :: (e ++ ['$'])) ++ t2
        ++ ('\\' :: '[' :: (f ++ ['\\', ']'])) ++ t3)
      = (t0 ++ formulaMarker 0 ++ t1 ++ formulaMarker 1 ++ t2
          ++ formulaMarker 2 ++ t3,
         [(formulaMarker 0, '$' :: '$' :: (d ++ ['$', '$'])),
          (formulaMarker 1, '$' :: (e ++ ['$'])),
          (formulaMarker 2, '\\' :: '[' :: (f ++ ['\\', ']']))])
    ∧ restoreFormulas
        (t0 ++ formulaMarker 0 ++ t1 ++ formulaMarker 1 ++ t2
          ++ formulaMarker 2 ++ t3)
        [(formulaMarker 0, '$' :: '$' :: (d ++ ['$', '$'])),
         (formulaMarker 1, '$' :: (e ++ ['$'])),
         (formulaMarker 2, '\\' :: '[' :: (f ++ ['\\', ']']))]
      = t0 ++ unescapeEntities ('$' :: '$' :: (d ++ ['$', '$'])) ++ t1
          ++ unescapeEntities ('$' :: (e ++ ['$'])) ++ t2
          ++ unescapeEntities ('\\' :: '[' :: (f ++ ['\\', ']'])) ++ t3
    ∧ (formulaMarker 0 ≠ formulaMarker 1 ∧ formulaMarker 0 ≠ formulaMarker 2
        ∧ formulaMarker 1 ≠ formulaMarker 2)
    ∧ (∀ doc : List Char, containsSub (formulaMarker 0) doc = false →
        containsSub (formulaMarker 1) doc = false →
        containsSub (formulaMarker 2) doc = false →
        restoreFormulas doc
          [(formulaMarker 0, '$' :: '$' :: (d ++ ['$', '$'])),
           (formulaMarker 1, '$' :: (e ++ ['$'])),
           (formulaMarker 2, '\\' :: '[' :: (f ++ ['\\', ']']))] = doc)
    ∧ unescapeEntities (("&amp; &lt; &gt;").toList) = ("& < >").toList
    ∧ (∀ pre post : List Char,
        '$' ∉ pre → '$' ∉ post → '\\' ∉ pre → '\\' ∉ post →
        protectFormulas (pre ++ ("$$x^2$$".toList) ++ post)
          = (pre ++ formulaMarker 0 ++ post,
             [(formulaMarker 0, ("$$x^2$$".toList))])
        ∧ ∃ x y, restoreFormulas (pre ++ formulaMarker 0 ++ post)
            [(formulaMarker 0, ("$$x^2$$".toList))]
            = x ++ ("$$x^2$$".toList) ++ y) := by
  refine ⟨protect_three hd he hdS heS hfS hfBr h0S h1S h2S h3S h0B h1B h2B h3B,
    ?_, ⟨by decide, by decide, by decide⟩, ?_, by decide, ?_⟩
  · have hX0 : 'L' ∉ '$' :: '$' :: (d ++ ['$', '$']) := by
      intro hm
      rcases List.mem_cons.mp hm with hh | hm
      · exact absurd hh (by decide)
      rcases List.mem_cons.mp hm with hh | hm
      · exact absurd hh (by decide)
      rcases List.mem_append.mp hm with hm | hm
      · exact hdL hm
      · rcases List.mem_cons.mp hm with hh | hm2
        · exact absurd hh (by decide)
        rcases List.mem_cons.mp hm2 with hh | hm3
        · exact absurd hh (by decide)
        · exact absurd hm3 (by simp)
    have hX1 : 'L' ∉ '$' :: (e ++ ['$']) := by
      intro hm
      rcases List.mem_cons.mp hm with hh | hm
      · exact absurd hh (by decide)
      rcases List.mem_append.mp hm with hm | hm
      · exact heL hm
      · rcases List.mem_cons.mp hm with hh | hm2
        · exact absurd hh (by decide)
        · exact absurd hm2 (by simp)
    exact restore_three h0L h1L h2L h3L hX0 hX1
  · intro doc hc0 hc1 hc2
    simp only [restoreFormulas, List.foldl_cons, List.foldl_nil]
    rw [replaceAll_of_not_contains _ _ doc hc0,
      replaceAll_of_not_contains _ _ doc hc1,
      replaceAll_of_not_contains _ _ doc hc2]
  · intro pre post hq1 hq2 hq3 hq4
    have hresteq : ∀ doc : List Char,
        restoreFormulas doc [(formulaMarker 0, ("$$x^2$$".toList))]
          = replaceAll (formulaMarker 0) ("$$x^2$$".toList) doc := by
      intro doc
      unfold restoreFormulas
      rw [List.foldl_cons, List.foldl_nil]
      have hu : unescapeEntities ("$$x^2$$".toList) = ("$$x^2$$".toList) := by decide
      rw [hu]
    constructor
    · unfold protectFormulas
      have hq1p : reSubSt matchMathDD markerAct
          (pre ++ (("$$x^2$$".toList) ++ post)) []
          = (pre ++ (formulaMarker 0 ++ post),
             [(formulaMarker 0, ("$$x^2$$".toList))]) := by
        rw [reSubSt_append_left matchMathDD markerAct pre (("$$x^2$$".toList) ++ post) []
          (fun p' hp' hne => matchMathDD_none_pre hq1 p' _ hp' hne)]
        rw [reSubSt_step matchMathDD markerAct []
          (show ("$$x^2$$".toList) ++ post ≠ [] by simp)
          (matchMathDD_at post) (by
            have hlen7 : (("$$x^2$$".toList) ++ post).length = post.length + 7 := by
              simp
            omega)]
        rw [reSubSt_noMatch matchMathDD markerAct post
          ((markerAct ("$$x^2$$".toList) []).2)
          (matchMathDD_suffix_none hq2)]
        rfl
      rw [show pre ++ ("$$x^2$$".toList) ++ post
          = pre ++ (("$$x^2$$".toList) ++ post) by simp]
      simp only []
      rw [hq1p]
      have hnoS : '$' ∉ pre ++ (formulaMarker 0 ++ post) := by
        intro hmem
        rcases List.mem_append.mp hmem with hm | hm
        · exact hq1 hm
        · rcases List.mem_append.mp hm with hm2 | hm2
          · exact absurd hm2 (by decide)
          · exact hq2 hm2
      have hnoB : '\\' ∉ pre ++ (formulaMarker 0 ++ post) := by
        intro hmem
        rcases List.mem_append.mp hmem with hm | hm
        · exact hq3 hm
        · rcases List.mem_append.mp hm with hm2 | hm2
          · exact absurd hm2 (by decide)
          · exact hq4 hm2
      rw [show reSubSt matchMathS markerAct (pre ++ (formulaMarker 0 ++ post))
            [(formulaMarker 0, ("$$x^2$$".toList))]
          = (pre ++ (formulaMarker 0 ++ post),
             [(formulaMarker 0, ("$$x^2$$".toList))]) from
        congrFun (protect_noMathS hnoS) _]
      rw [show reSubSt matchMathBr markerAct (pre ++ (formulaMarker 0 ++ post))
            [(formulaMarker 0, ("$$x^2$$".toList))]
          = (pre ++ (formulaMarker 0 ++ post),
             [(formulaMarker 0, ("$$x^2$$".toList))]) from
        congrFun (protect_noMathBr hnoB) _]
      simp
    · rw [hresteq (pre ++ formulaMarker 0 ++ post)]
      exact replaceAll_contains (formulaMarker 0) ("$$x^2$$".toList) (by decide)
        pre post

/-- Witness for C4 at a concrete three-span fragment: the single-dollar and
bracket formulas carry entities that are unescaped on restoration, while the
`&amp;` in the surrounding text stays escaped, and `$$x^2$$` returns
verbatim. -/
theorem c4_formula_protection_witness :
    protectFormulas (("A $$x^2$$ &amp; stays $a &lt;= b &amp; c$ C \\[x &gt; y\\] D").toList)
      = (("A LATEX-0-SUBSTITUTION &amp; stays LATEX-1-SUBSTITUTION C LATEX-2-SUBSTITUTION D").toList,
         [(("LATEX-0-SUBSTITUTION").toList, ("$$x^2$$").toList),
          (("LATEX-1-SUBSTITUTION").toList, ("$a &lt;= b &amp; c$").toList),
          (("LATEX-2-SUBSTITUTION").toList, ("\\[x &gt; y\\]").toList)])
    ∧ restoreFormulas
        (("A LATEX-0-SUBSTITUTION &amp; stays LATEX-1-SUBSTITUTION C LATEX-2-SUBSTITUTION D").toList)
        [(("LATEX-0-SUBSTITUTION").toList, ("$$x^2$$").toList),
         (("LATEX-1-SUBSTITUTION").toList, ("$a &lt;= b &amp; c$").toList),
         (("LATEX-2-SUBSTITUTION").toList, ("\\[x &gt; y\\]").toList)]
      = ("A $$x^2$$ &amp; stays $a <= b & c$ C \\[x > y\\] D").toList := by
  have h := c4_formula_protection ("A ".toList) (" &amp; stays ".toList)
    (" C ".toList) (" D".toList) ("x^2".toList) ("a &lt;= b &amp; c".toList)
    ("x &gt; y".toList)
    (by decide) (by decide) (by decide) (by decide) (by decide) (by decide)
    (by decide) (by decide) (by decide) (by decide) (by decide) (by decide)
    (by decide) (by decide) (by decide) (by decide) (by decide) (by decide)
    (by decide) (by decide)
  constructor
  · have harg : ("A $$x^2$$ &amp; stays $a &lt;= b &amp; c$ C \\[x &gt; y\\] D").toList
        = ("A ".toList) ++ ('$' :: '$' :: (("x^2".toList) ++ ['$', '$']))
          ++ (" &amp; stays ".toList)
          ++ ('$' :: (("a &lt;= b &amp; c".toList) ++ ['$'])) ++ (" C ".toList)
          ++ ('\\' :: '[' :: (("x &gt; y".toList) ++ ['\\', ']']))
          ++ (" D".toList) := by decide
    rw [harg, h.1]
    decide
  · have hdoc : ("A LATEX-0-SUBSTITUTION &amp; stays LATEX-1-SUBSTITUTION C LATEX-2-SUBSTITUTION D").toList
        = ("A ".toList) ++ formulaMarker 0 ++ (" &amp; stays ".toList)
          ++ formulaMarker 1 ++ (" C ".toList) ++ formulaMarker 2
          ++ (" D".toList) := by decide
    have hsubs : [(("LATEX-0-SUBSTITUTION").toList, ("$$x^2$$").toList),
         (("LATEX-1-SUBSTITUTION").toList, ("$a &lt;= b &amp; c$").toList),
         (("LATEX-2-SUBSTITUTION").toList, ("\\[x &gt; y\\]").toList)]
        = [(formulaMarker 0, '$' :: '$' :: (("x^2".toList) ++ ['$', '$'])),
           (formulaMarker 1, '$' :: (("a &lt;= b &amp; c".toList) ++ ['$'])),
           (formulaMarker 2, '\\' :: '[' :: (("x &gt; y".toList) ++ ['\\', ']']))] := by
      decide
    rw [hdoc, hsubs, h.2.1]
    decide
